import Mathlib

/-!
Verification of the stream-correlator core of `claude-conversation-extractor`
(`src/extract_claude_logs.py`), as a shallow embedding in Lean 4.

Modelling conventions, shared by every definition below:

* A decoded JSON value (the result of `json.loads` on one JSONL line) is a
  `PyVal`: string, integer, boolean, `None`, list, or string-keyed dict.
  Floats are not modelled; no claim under verification involves them.
* Python strings are modelled as `List Char` (`Str`), so that every string
  operation is structurally recursive and computable by the kernel.
* Python statements that can raise (`"\n".join` on non-string parts,
  `.get`/`.strip`/`.lower` on values of the wrong type, arithmetic on
  non-numbers, unhashable dict keys) are modelled explicitly: helper
  functions return `Option`/`Except`, and the per-record exception handler
  of the source (`except Exception: continue`) is modelled by keeping the
  partially-updated state built before the raise point and skipping the
  rest of the record.
* Python `dict` used as a pairing table is an association list with
  insert-overwrites-in-place semantics (`dinsert`), matching CPython's
  preservation of insertion order and of the first-inserted key object.
-/

set_option maxHeartbeats 1000000

namespace CCE

/-- Python strings, as character lists (kernel-computable). -/
abbrev Str := List Char

/-- Shorthand: the character list of a Lean string literal. -/
def S (s : String) : Str := s.toList

/-- Decoded JSON values (output of `json.loads`), minus floats. -/
inductive PyVal where
  | str (s : Str)
  | int (n : Int)
  | bool (b : Bool)
  | none
  | list (xs : List PyVal)
  | dict (kvs : List (Str × PyVal))

mutual

/-- Python `==` on decoded values: structural, with `True == 1` / `False == 0`
numeric promotion between booleans and integers. -/
def pyBeq : PyVal → PyVal → Bool
  | .str a, .str b => a = b
  | .int a, .int b => a = b
  | .bool a, .bool b => a = b
  | .bool a, .int b => (if a then (1 : Int) else 0) = b
  | .int a, .bool b => a = (if b then (1 : Int) else 0)
  | .none, .none => true
  | .list as, .list bs => pyBeqList as bs
  | .dict as, .dict bs => pyBeqDict as bs
  | _, _ => false

def pyBeqList : List PyVal → List PyVal → Bool
  | [], [] => true
  | a :: as, b :: bs => pyBeq a b && pyBeqList as bs
  | _, _ => false

def pyBeqDict : List (Str × PyVal) → List (Str × PyVal) → Bool
  | [], [] => true
  | (k, a) :: as, (l, b) :: bs => k = l && pyBeq a b && pyBeqDict as bs
  | _, _ => false

end

mutual

theorem pyBeq_refl : ∀ a : PyVal, pyBeq a a = true
  | .str a => by simp [pyBeq]
  | .int a => by simp [pyBeq]
  | .bool a => by simp [pyBeq]
  | .none => by simp [pyBeq]
  | .list as => by simp [pyBeq, pyBeqList_refl as]
  | .dict as => by simp [pyBeq, pyBeqDict_refl as]

theorem pyBeqList_refl : ∀ as : List PyVal, pyBeqList as as = true
  | [] => by simp [pyBeqList]
  | a :: as => by simp [pyBeqList, pyBeq_refl a, pyBeqList_refl as]

theorem pyBeqDict_refl : ∀ as : List (Str × PyVal), pyBeqDict as as = true
  | [] => by simp [pyBeqDict]
  | (k, a) :: as => by simp [pyBeqDict, pyBeq_refl a, pyBeqDict_refl as]

end

mutual

theorem pyBeq_symm : ∀ a b : PyVal, pyBeq a b = pyBeq b a
  | .str a, .str b => by simp [pyBeq]; exact ⟨fun h => h.symm, fun h => h.symm⟩
  | .int a, .int b => by simp [pyBeq]; exact ⟨fun h => h.symm, fun h => h.symm⟩
  | .bool a, .bool b => by simp [pyBeq]; exact ⟨fun h => h.symm, fun h => h.symm⟩
  | .bool a, .int b => by simp [pyBeq]; exact ⟨fun h => h.symm, fun h => h.symm⟩
  | .int a, .bool b => by simp [pyBeq]; exact ⟨fun h => h.symm, fun h => h.symm⟩
  | .none, .none => by simp [pyBeq]
  | .list as, .list bs => by simp [pyBeq, pyBeqList_symm as bs]
  | .dict as, .dict bs => by simp [pyBeq, pyBeqDict_symm as bs]
  | .str _, .int _ | .str _, .bool _ | .str _, .none | .str _, .list _ | .str _, .dict _ => by simp [pyBeq]
  | .int _, .str _ | .int _, .none | .int _, .list _ | .int _, .dict _ => by simp [pyBeq]
  | .bool _, .str _ | .bool _, .none | .bool _, .list _ | .bool _, .dict _ => by simp [pyBeq]
  | .none, .str _ | .none, .int _ | .none, .bool _ | .none, .list _ | .none, .dict _ => by simp [pyBeq]
  | .list _, .str _ | .list _, .int _ | .list _, .bool _ | .list _, .none | .list _, .dict _ => by simp [pyBeq]
  | .dict _, .str _ | .dict _, .int _ | .dict _, .bool _ | .dict _, .none | .dict _, .list _ => by simp [pyBeq]

theorem pyBeqList_symm : ∀ as bs : List PyVal, pyBeqList as bs = pyBeqList bs as
  | [], [] => by simp [pyBeqList]
  | a :: as, b :: bs => by simp [pyBeqList, pyBeq_symm a b, pyBeqList_symm as bs]
  | [], _ :: _ => by simp [pyBeqList]
  | _ :: _, [] => by simp [pyBeqList]

theorem pyBeqDict_symm : ∀ as bs : List (Str × PyVal), pyBeqDict as bs = pyBeqDict bs as
  | [], [] => by simp [pyBeqDict]
  | (k, a) :: as, (l, b) :: bs => by
      simp [pyBeqDict, pyBeq_symm a b, pyBeqDict_symm as bs, eq_comm (a := k) (b := l)]
  | [], _ :: _ => by simp [pyBeqDict]
  | _ :: _, [] => by simp [pyBeqDict]

end

/-- Python truthiness (`bool(v)`): empty string/list/dict, `0`, `False`, `None`
are falsy; everything else is truthy. -/
def truthy : PyVal → Bool
  | .str s => !s.isEmpty
  | .int n => n ≠ 0
  | .bool b => b
  | .none => false
  | .list xs => !xs.isEmpty
  | .dict kvs => !kvs.isEmpty

/-- A value usable as a Python dict key / set element (hashable):
scalars are, lists and dicts are not. -/
def hashable : PyVal → Bool
  | .list _ => false
  | .dict _ => false
  | _ => true

/-- Lookup of a string key in a decoded JSON object (keys of one decoded
object are distinct, so first match is the match). -/
def dGet? : List (Str × PyVal) → Str → Option PyVal
  | [], _ => Option.none
  | (k, v) :: rest, key => if k = key then some v else dGet? rest key

/-- `v.get(key, dflt)` on a value known to be a dict
(returns `dflt` when `v` is not a dict; only used at sites where the source
has already checked `isinstance(v, dict)` or where `v` is a fresh literal). -/
def pyGetD (v : PyVal) (key : Str) (dflt : PyVal) : PyVal :=
  match v with
  | .dict kvs => (dGet? kvs key).getD dflt
  | _ => dflt

/-- `key in v` for a dict `v` with a string key. -/
def dictHasKey (v : PyVal) (key : Str) : Bool :=
  match v with
  | .dict kvs => (dGet? kvs key).isSome
  | _ => false

/-! ## Python string primitives (over `Str = List Char`) -/

/-- Python whitespace for `str.strip()` / `\s`:
space, tab, newline, carriage return, vertical tab, form feed.
(The source only ever feeds ASCII markers to these; non-ASCII Unicode
whitespace is not modelled.) -/
def isPyWs (c : Char) : Bool :=
  c = ' ' || c = '\t' || c = '\n' || c = '\r' || c = '\x0b' || c = '\x0c'

def dropWs : Str → Str
  | [] => []
  | c :: rest => if isPyWs c then dropWs rest else c :: rest

/-- Python `s.strip()`. -/
def pyStrip (s : Str) : Str := (dropWs (dropWs s.reverse).reverse)

/-- Python `s.lstrip()` (used only for indentation measurement). -/
def pyLStrip (s : Str) : Str := dropWs s

/-- Python `s.split(sep)` for a single-character separator (`'\n'`). -/
def pySplitChar (sep : Char) : Str → List Str
  | [] => [[]]
  | c :: rest =>
      let r := pySplitChar sep rest
      if c = sep then [] :: r
      else match r with
        | [] => [[c]]
        | h :: t => (c :: h) :: t

/-- Python `sep.join(parts)` where every part is already a string. -/
def joinStr (sep : Str) : List Str → Str
  | [] => []
  | [p] => p
  | p :: rest => p ++ sep ++ joinStr sep rest

/-- Python `sep.join(parts)` over decoded values: raises `TypeError`
(modelled as `Except.error ()`) as soon as a part is not a string. -/
def joinVals (sep : Str) : List PyVal → Except Unit Str
  | [] => .ok []
  | [.str p] => .ok p
  | .str p :: rest => do
      let r ← joinVals sep rest
      pure (p ++ sep ++ r)
  | _ :: _ => .error ()

/-- ASCII `str.lower()` (the failure markers matched against it are ASCII). -/
def pyLower (s : Str) : Str := s.map Char.toLower

/-- Python `sub in s` (contiguous substring containment). -/
def strContains (s sub : Str) : Bool :=
  (List.range (s.length + 1)).any (fun i => (s.drop i).take sub.length = sub)

/-- Python `s.startswith(p)`. -/
def strStartsWith (s p : Str) : Bool := s.take p.length = p

/-- Python `s.find(sub)`: least index where `sub` occurs, `-1` if none. -/
def strFindAux (sub : Str) : Str → Nat → Option Nat
  | [], i => if sub = [] then some i else Option.none
  | c :: rest, i =>
      if ((c :: rest).take sub.length) = sub then some i
      else strFindAux sub rest (i + 1)

def strFind (s sub : Str) : Int :=
  match strFindAux sub s 0 with
  | some i => (i : Int)
  | Option.none => -1

/-- Decimal rendering of a natural number (fuel-based so the kernel reduces it). -/
def natToStrAux : Nat → Nat → Str
  | 0, _ => []
  | f + 1, n =>
      if n < 10 then [Char.ofNat (48 + n)]
      else natToStrAux f (n / 10) ++ [Char.ofNat (48 + n % 10)]

def natToStr (n : Nat) : Str := natToStrAux (n + 1) n

/-- Python `str(i)` for an integer. -/
def intToStr (i : Int) : Str :=
  if i < 0 then '-' :: natToStr i.natAbs else natToStr i.natAbs

mutual

/-- Python `str(v)`: identity on strings, `repr` on containers. -/
def pyStr : PyVal → Str
  | .str s => s
  | .int n => intToStr n
  | .bool b => if b then S "True" else S "False"
  | .none => S "None"
  | .list xs => '[' :: (joinStr (S ", ") (pyReprList xs) ++ [']'])
  | .dict kvs => '\x7b' :: (joinStr (S ", ") (pyReprDict kvs) ++ ['\x7d'])

/-- Python `repr(v)` (strings quoted; escaping of quotes/backslashes inside
string reprs is not modelled — no claim inspects a container's `str()`). -/
def pyRepr : PyVal → Str
  | .str s => '\'' :: (s ++ ['\''])
  | .int n => intToStr n
  | .bool b => if b then S "True" else S "False"
  | .none => S "None"
  | .list xs => '[' :: (joinStr (S ", ") (pyReprList xs) ++ [']'])
  | .dict kvs => '\x7b' :: (joinStr (S ", ") (pyReprDict kvs) ++ ['\x7d'])

def pyReprList : List PyVal → List Str
  | [] => []
  | v :: rest => pyRepr v :: pyReprList rest

def pyReprDict : List (Str × PyVal) → List Str
  | [] => []
  | (k, v) :: rest => ('\'' :: (k ++ ('\'' :: (S ": " ++ pyRepr v)))) :: pyReprDict rest

end

/-! ## JSON serialization (`json.dumps(v, indent=2)`)

Used by the flattener's detailed-mode tool summaries. Total on decoded
values (every `PyVal` is JSON-serializable). -/

def hexDigit (n : Nat) : Char :=
  if n < 10 then Char.ofNat (48 + n) else Char.ofNat (87 + n)

def uEscape (n : Nat) : Str :=
  '\\' :: 'u' :: [hexDigit (n / 4096 % 16), hexDigit (n / 256 % 16), hexDigit (n / 16 % 16), hexDigit (n % 16)]

def jsonEscapeChar (c : Char) : Str :=
  if c = '"' then S "\\\""
  else if c = '\\' then S "\\\\"
  else if c = '\n' then S "\\n"
  else if c = '\t' then S "\\t"
  else if c = '\r' then S "\\r"
  else if c.toNat < 32 then uEscape c.toNat
  else if c.toNat < 127 then [c]
  else if c.toNat < 65536 then uEscape c.toNat
  else uEscape (55296 + (c.toNat - 65536) / 1024) ++ uEscape (56320 + (c.toNat - 65536) % 1024)

def jsonStr (s : Str) : Str := '"' :: ((s.flatMap jsonEscapeChar) ++ ['"'])

def indentOf (n : Nat) : Str := List.replicate n ' '

mutual

def jsonDumps (ind : Nat) : PyVal → Str
  | .str s => jsonStr s
  | .int n => intToStr n
  | .bool b => if b then S "true" else S "false"
  | .none => S "null"
  | .list [] => S "[]"
  | .list (x :: xs) =>
      '[' :: '\n' :: (joinStr (S ",\n") (jsonDumpsList (ind + 2) (x :: xs)) ++
        ('\n' :: (indentOf ind ++ [']'])))
  | .dict [] => S "\x7b\x7d"
  | .dict (kv :: kvs) =>
      '\x7b' :: '\n' :: (joinStr (S ",\n") (jsonDumpsDict (ind + 2) (kv :: kvs)) ++
        ('\n' :: (indentOf ind ++ ['\x7d'])))

def jsonDumpsList (ind : Nat) : List PyVal → List Str
  | [] => []
  | v :: rest => (indentOf ind ++ jsonDumps ind v) :: jsonDumpsList ind rest

def jsonDumpsDict (ind : Nat) : List (Str × PyVal) → List Str
  | [] => []
  | (k, v) :: rest =>
      (indentOf ind ++ (jsonStr k ++ (S ": " ++ jsonDumps ind v))) :: jsonDumpsDict ind rest

end

/-! ## Pairing tables (Python `dict` used with arbitrary hashable keys) -/

/-- `d[k] = v`: overwrite in place when an equal key is present (keeping the
originally inserted key object, as CPython does), else append. -/
def dinsert (k : PyVal) (v : α) : List (PyVal × α) → List (PyVal × α)
  | [] => [(k, v)]
  | (k', v') :: rest =>
      if pyBeq k k' then (k', v) :: rest else (k', v') :: dinsert k v rest

/-- `d.get(k)` / `d[k]` by Python key equality. -/
def dlookup (k : PyVal) : List (PyVal × α) → Option α
  | [] => Option.none
  | (k', v) :: rest => if pyBeq k k' then some v else dlookup k rest

/-- `k in d`. -/
def dcontains (k : PyVal) (m : List (PyVal × α)) : Bool := (dlookup k m).isSome

/-- `del d[k]` (first — and by the table invariant only — match). -/
def derase (k : PyVal) : List (PyVal × α) → List (PyVal × α)
  | [] => []
  | (k', v) :: rest => if pyBeq k k' then rest else (k', v) :: derase k rest

/-- The table invariant: no two live keys are equal under Python `==`. -/
def KeysDistinct (m : List (PyVal × α)) : Prop :=
  m.Pairwise (fun a b => pyBeq a.1 b.1 = false)

theorem dinsert_mem_keys {α : Type} (k : PyVal) (v : α) (m : List (PyVal × α)) :
    ∀ a ∈ dinsert k v m, a.1 = k ∨ ∃ b ∈ m, a.1 = b.1 := by
  induction m with
  | nil =>
      intro a ha
      simp [dinsert] at ha
      left; simp [ha]
  | cons hd tl ih =>
      obtain ⟨k', v'⟩ := hd
      intro a ha
      by_cases h2 : pyBeq k k' = true
      · simp [dinsert, h2] at ha
        rcases ha with ha | ha
        · right; exact ⟨(k', v'), by simp, by simp [ha]⟩
        · right; exact ⟨a, by simp [ha], rfl⟩
      · simp [dinsert, h2] at ha
        rcases ha with ha | ha
        · right; exact ⟨(k', v'), by simp, by simp [ha]⟩
        · rcases ih a ha with h3 | ⟨b, hb, h3⟩
          · left; exact h3
          · right; exact ⟨b, by simp [hb], h3⟩

theorem derase_mem {α : Type} (k : PyVal) (m : List (PyVal × α)) :
    ∀ a ∈ derase k m, a ∈ m := by
  induction m with
  | nil => intro a ha; simp [derase] at ha
  | cons hd tl ih =>
      obtain ⟨k', v'⟩ := hd
      intro a ha
      by_cases h2 : pyBeq k k' = true
      · simp [derase, h2] at ha
        simp [ha]
      · simp [derase, h2] at ha
        rcases ha with ha | ha
        · simp [ha]
        · simp [ih a ha]

theorem dinsert_keysDistinct {α : Type} (k : PyVal) (v : α) (m : List (PyVal × α))
    (h : KeysDistinct m) : KeysDistinct (dinsert k v m) := by
  induction m with
  | nil =>
      simp [dinsert, KeysDistinct]
  | cons hd tl ih =>
      obtain ⟨k', v'⟩ := hd
      simp only [KeysDistinct, List.pairwise_cons] at h
      cases hk : pyBeq k k' with
      | true => simpa [dinsert, hk, KeysDistinct, List.pairwise_cons] using h
      | false =>
        have htl := ih h.2
        simp only [dinsert, hk, if_neg Bool.false_ne_true]
        simp only [KeysDistinct, List.pairwise_cons] at htl
        simp only [KeysDistinct, List.pairwise_cons]
        refine ⟨?_, htl⟩
        intro a ha
        rcases dinsert_mem_keys k v tl a ha with hm | ⟨b, hb, hm⟩
        · rw [hm, pyBeq_symm]; exact hk
        · rw [hm]; exact h.1 b hb

theorem derase_keysDistinct {α : Type} (k : PyVal) (m : List (PyVal × α))
    (h : KeysDistinct m) : KeysDistinct (derase k m) := by
  induction m with
  | nil => simp [derase, KeysDistinct]
  | cons hd tl ih =>
      obtain ⟨k', v'⟩ := hd
      simp only [KeysDistinct, List.pairwise_cons] at h
      cases hk : pyBeq k k' with
      | true => simpa [derase, hk, KeysDistinct] using h.2
      | false =>
        simp only [derase, hk, if_neg Bool.false_ne_true]
        simp only [KeysDistinct, List.pairwise_cons]
        refine ⟨fun a ha => h.1 a (derase_mem k tl a ha), ih h.2⟩

/-- Later registration wins: after `d[k] = v`, looking up `k` yields `v`. -/
theorem dlookup_dinsert {α : Type} (k : PyVal) (v : α) (m : List (PyVal × α)) :
    dlookup k (dinsert k v m) = some v := by
  induction m with
  | nil => simp [dinsert, dlookup, pyBeq_refl]
  | cons hd tl ih =>
      obtain ⟨k', v'⟩ := hd
      by_cases hk : pyBeq k k' = true
      · simp [dinsert, hk, dlookup]
      · simp [dinsert, hk, dlookup, ih]

/-! ## Regex scanners

The source uses three fixed regular expressions; each is embedded as a
position-by-position scanner (`re.search` semantics: leftmost match wins,
greedy character classes with the only needed backtracking — the trailing
`\.md` of the plan-path pattern — made explicit). -/

/-- `\w` (ASCII; the agent ids matched in practice are hex strings). -/
def isWordChar (c : Char) : Bool := c.isAlpha || c.isDigit || c = '_'

/-- Try `agentId:\s*(\w+)` anchored at the start of `s`; the group is the
maximal word-character run (disjoint from `\s`, so greedy matching is exact). -/
def agentIdAt (s : Str) : Option Str :=
  if strStartsWith s (S "agentId:") then
    let rest := (s.drop 8).dropWhile isPyWs
    let w := rest.takeWhile isWordChar
    if w.isEmpty then Option.none else some w
  else Option.none

/-- `re.search`: try every start position, leftmost success wins. -/
def searchSome (p : Str → Option α) : Str → Option α
  | [] => p []
  | c :: rest =>
      match p (c :: rest) with
      | some r => some r
      | Option.none => searchSome p rest

/-- `re.search(r'agentId:\s*(\w+)', text)`, returning the captured group. -/
def agentIdSearch (text : Str) : Option Str := searchSome agentIdAt text

/-- `[/\\]` -/
def isSep (c : Char) : Bool := c = '/' || c = '\\'

/-- Strip a literal pattern piece, or fail. -/
def stripLit (lit s : Str) : Option Str :=
  if strStartsWith s lit then some (s.drop lit.length) else Option.none

/-- `⏺\s*User approved Claude's plan` anchored at the start of `s`. -/
def approvedAt (s : Str) : Bool :=
  match s with
  | c :: rest =>
      c = '⏺' && strStartsWith (rest.dropWhile isPyWs) (S "User approved Claude's plan")
  | [] => false

/-- `Plan saved to:\s*~[/\\]\.claude[/\\]plans[/\\]` anchored at the start. -/
def planMarkerAt (s : Str) : Bool :=
  match stripLit (S "Plan saved to:") s with
  | Option.none => false
  | some s1 =>
      match (s1.dropWhile isPyWs) with
      | '~' :: c1 :: r1 =>
          isSep c1 &&
          (match stripLit (S ".claude") r1 with
           | some (c2 :: r2) =>
               isSep c2 &&
               (match stripLit (S "plans") r2 with
                | some (c3 :: _) => isSep c3
                | _ => false)
           | _ => false)
      | _ => false

/-- `_contains_plan_approval` (source lines 982–994). -/
def contains_plan_approval (text : Str) : Bool :=
  (searchSome (fun s => if approvedAt s then some () else Option.none) text).isSome ||
  (searchSome (fun s => if planMarkerAt s then some () else Option.none) text).isSome

/-- `[^\s·]` -/
def isPathChar (c : Char) : Bool := !(isPyWs c) && c ≠ '·'

/-- Backtracking of `[^\s·]+\.md` inside the maximal non-space run `run`:
the longest prefix of `run` of length ≥ 4 that ends in `.md`. -/
def mdBacktrack (run : Str) : Option Str :=
  (List.range (run.length + 1)).reverse.findSome? (fun n =>
    if 4 ≤ n ∧ (run.take n).drop (n - 3) = S ".md" then some (run.take n) else Option.none)

/-- `Plan saved to:\s*(~[/\\]\.claude[/\\]plans[/\\][^\s·]+\.md)` anchored at
the start of `s`; returns the captured path. -/
def planPathAt (s : Str) : Option Str :=
  match stripLit (S "Plan saved to:") s with
  | Option.none => Option.none
  | some s1 =>
      match (s1.dropWhile isPyWs) with
      | '~' :: c1 :: r1 =>
          if isSep c1 then
            match stripLit (S ".claude") r1 with
            | some (c2 :: r2) =>
                if isSep c2 then
                  match stripLit (S "plans") r2 with
                  | some (c3 :: r3) =>
                      if isSep c3 then
                        match mdBacktrack (r3.takeWhile isPathChar) with
                        | some tail =>
                            some ('~' :: c1 :: (S ".claude" ++ (c2 :: (S "plans" ++ (c3 :: tail)))))
                        | Option.none => Option.none
                      else Option.none
                  | _ => Option.none
                else Option.none
            | _ => Option.none
          else Option.none
      | _ => Option.none

/-! ## Text flattener (`_extract_text_content`, source lines 948–967) -/

/-- One parsed plan / text-block classification outcome. -/
structure Plan where
  title : Str
  path : Str
  content : Str
  deriving DecidableEq

/-- What one block contributes to `_extract_text_content`'s parts list:
`text`-block payloads verbatim (possibly non-strings!), `tool_result`
blocks skipped, and, in detailed mode, two summary strings per `tool_use`
block. Non-dict items are ignored. -/
def partsOf (detailed : Bool) (item : PyVal) : List PyVal :=
  match item with
  | .dict kvs =>
      let ty := (dGet? kvs (S "type")).getD .none
      if pyBeq ty (.str (S "text")) then
        [(dGet? kvs (S "text")).getD (.str [])]
      else if pyBeq ty (.str (S "tool_result")) then []
      else if detailed && pyBeq ty (.str (S "tool_use")) then
        [.str ('\n' :: (S "🔧 Using tool: " ++ pyStr ((dGet? kvs (S "name")).getD (.str (S "unknown"))))),
         .str (S "Input: " ++ (jsonDumps 0 ((dGet? kvs (S "input")).getD (.dict [])) ++ ['\n']))]
      else []
  | _ => []

/-- The parts list built by `_extract_text_content` for block-sequence
content (the source's accumulating loop, per item). -/
def flattenParts (detailed : Bool) (items : List PyVal) : List PyVal :=
  items.flatMap (partsOf detailed)

/-- `_extract_text_content(content, detailed)`. Strings pass through; block
lists are flattened newline-joined (raising — `Except.error` — when a text
block's payload is not a string, as `"\n".join` does); any other shape
falls back to `str(content)`. -/
def extract_text_content (content : PyVal) (detailed : Bool) : Except Unit Str :=
  match content with
  | .str s => .ok s
  | .list items => joinVals (S "\n") (flattenParts detailed items)
  | v => .ok (pyStr v)

/-! ## Plan parsing (`_parse_plan_content`, source lines 996–1068) -/

/-- The title-search loop: first line with non-blank strip gives
`(stripped, i+1)`; no such line leaves the defaults `("", 0)`. -/
def findTitle : Nat → List Str → (Str × Nat)
  | _, [] => ([], 0)
  | i, l :: rest =>
      if (pyStrip l).isEmpty then findTitle (i + 1) rest
      else (pyStrip l, i + 1)

/-- Leading-whitespace count of a line (`len(l) - len(l.lstrip())`). -/
def indentWidth (l : Str) : Nat := l.length - (pyLStrip l).length

/-- Minimum indentation over the non-empty content lines. -/
def minIndent (ls : List Str) : Nat :=
  match ls.map indentWidth with
  | [] => 0
  | x :: xs => xs.foldl Nat.min x

/-- `_parse_plan_content(text)`: locate the save-path token, take the first
non-blank line after it as title, and de-indent the remainder by its
minimum common indentation. `none` when the token is absent or nothing
follows it. -/
def parse_plan_content (text : Str) : Option Plan :=
  match searchSome planPathAt text with
  | Option.none => Option.none
  | some path =>
      let idx := (strFind text path).toNat
      let remaining0 := pyStrip (text.drop (idx + path.length))
      let remaining1 :=
        match remaining0 with
        | '·' :: _ =>
            match strFindAux (S "\n") remaining0 0 with
            | some p => remaining0.drop (p + 1)
            | Option.none => []
        | r => r
      let remaining := pyStrip remaining1
      if remaining.isEmpty then Option.none
      else
        let lines := pySplitChar '\n' remaining
        let (title, contentStart) := findTitle 0 lines
        let contentLines := lines.drop contentStart
        let nonEmpty := contentLines.filter (fun l => !(pyStrip l).isEmpty)
        let contentLines :=
          if nonEmpty.isEmpty then contentLines
          else
            let mi := minIndent nonEmpty
            contentLines.map (fun l => if mi ≤ l.length then l.drop mi else l)
        some ⟨title, path, pyStrip (joinStr (S "\n") contentLines)⟩

/-! ## Conversation data model (`extract_conversation`, source lines 295–576) -/

def PyVal.isDict : PyVal → Bool
  | .dict _ => true
  | _ => false

/-- Pending delegated task (`pending_task_tools` values, source line 449). -/
structure TaskInfo where
  description : PyVal
  subagent_type : PyVal

/-- Per-message metadata attached in detailed mode
(`_extract_message_metadata`, source lines 969–980). -/
structure Metadata where
  model : PyVal
  input_tokens : PyVal
  output_tokens : PyVal
  cache_read_tokens : PyVal
  cwd : PyVal
  git_branch : PyVal

/-- The statistics accumulator (source lines 308–321). Counters the source
only ever increments by 1 are `Int` like the rest (Python ints). -/
structure Stats where
  models_used : List PyVal
  total_input_tokens : Int
  total_output_tokens : Int
  total_cache_read_tokens : Int
  total_cache_creation_tokens : Int
  turn_count : Int
  tool_use_count : Int
  tools_used : List (PyVal × Int)
  subagent_count : Int
  total_duration_ms : Int
  session_version : PyVal
  git_branch : PyVal

def initStats : Stats :=
  ⟨[], 0, 0, 0, 0, 0, 0, [], 0, 0, .str [], .str []⟩

/-- One nested subagent message (`{role, content, timestamp}`). -/
structure SubMsg where
  role : String
  content : PyVal
  timestamp : PyVal

/-- Result of `extract_subagent_conversation`. -/
structure SubConv where
  agent_id : Str
  model : PyVal
  messages : List SubMsg

/-- One conversation entry, tagged by the `role` value of the dict the
source appends to `conversation`. -/
inductive Entry where
  | user (content : Str) (timestamp : PyVal)
  | assistant (content : Str) (timestamp : PyVal) (metadata : Option Metadata)
  | thinking (content : PyVal) (timestamp : PyVal)
  | system (content : Str) (timestamp : PyVal)
  | plan (content : Str) (plan_title : Str) (plan_path : Str) (plan_content : Str) (timestamp : PyVal)
  | qa (questions : PyVal) (answers : PyVal) (timestamp : PyVal)
  | subagent (description : PyVal) (subagent_type : PyVal) (agent_id : Str)
      (model : PyVal) (messages : List SubMsg) (timestamp : PyVal)
  | stats (s : Stats)

def Entry.role : Entry → String
  | .user .. => "user"
  | .assistant .. => "assistant"
  | .thinking .. => "thinking"
  | .system .. => "system"
  | .plan .. => "plan"
  | .qa .. => "qa"
  | .subagent .. => "subagent"
  | .stats .. => "stats"

/-- The `timestamp` value of an entry (`""` for the stats entry,
source line 573). -/
def Entry.ts : Entry → PyVal
  | .user _ t => t
  | .assistant _ t _ => t
  | .thinking _ t => t
  | .system _ t => t
  | .plan _ _ _ _ t => t
  | .qa _ _ t => t
  | .subagent _ _ _ _ _ t => t
  | .stats _ => .str []

/-- `entry.get("timestamp", "")`. -/
def tsField (entry : PyVal) : PyVal := pyGetD entry (S "timestamp") (.str [])

/-- Python `int += v`: succeeds on ints and booleans, raises otherwise. -/
def pyAddInt (a : Int) (v : PyVal) : Option Int :=
  match v with
  | .int n => some (a + n)
  | .bool b => some (a + if b then 1 else 0)
  | _ => Option.none

/-- `Counter[k] += 1` (missing key counts as 0; unhashable keys are handled
at the call site). -/
def counterIncr (k : PyVal) (m : List (PyVal × Int)) : List (PyVal × Int) :=
  dinsert k ((dlookup k m).getD 0 + 1) m

/-! ## Helper extractors (source lines 1070–1152) -/

/-- `_extract_questions_from_content` (source lines 1070–1088): first
`AskUserQuestion` tool-use block yields `(tool_use_id, questions)`;
raises when that block's `input` is not a dict. -/
def extract_questions_from_content (content : PyVal) : Except Unit (Option (PyVal × PyVal)) :=
  match content with
  | .list items => goQuestions items
  | _ => .ok Option.none
where
  goQuestions : List PyVal → Except Unit (Option (PyVal × PyVal))
  | [] => .ok Option.none
  | item :: rest =>
      if item.isDict &&
         pyBeq (pyGetD item (S "type") .none) (.str (S "tool_use")) &&
         pyBeq (pyGetD item (S "name") .none) (.str (S "AskUserQuestion")) then
        match pyGetD item (S "input") (.dict []) with
        | .dict ikvs =>
            .ok (some (pyGetD item (S "id") .none, (dGet? ikvs (S "questions")).getD (.list [])))
        | _ => .error ()
      else goQuestions rest

/-- `_extract_answers_from_entry` (source lines 1090–1112): first
`tool_result` block with a truthy id, provided `entry.toolUseResult.answers`
is truthy; raises when `toolUseResult` is present but not a dict. -/
def extract_answers_from_entry (entry : PyVal) : Except Unit (Option (PyVal × PyVal)) :=
  match pyGetD (pyGetD entry (S "message") (.dict [])) (S "content") (.list []) with
  | .list items => goAnswers entry items
  | _ => .ok Option.none
where
  goAnswers (entry : PyVal) : List PyVal → Except Unit (Option (PyVal × PyVal))
  | [] => .ok Option.none
  | item :: rest =>
      if item.isDict && pyBeq (pyGetD item (S "type") .none) (.str (S "tool_result")) then
        let tid := pyGetD item (S "tool_use_id") .none
        match pyGetD entry (S "toolUseResult") (.dict []) with
        | .dict tkvs =>
            let answers := (dGet? tkvs (S "answers")).getD (.dict [])
            if truthy answers && truthy tid then .ok (some (tid, answers))
            else goAnswers entry rest
        | _ => .error ()
      else goAnswers entry rest

/-- The title loop of `_extract_plan_from_exit_tool` (source lines 1136–1145):
first `# ` heading wins; else the first non-empty line not starting with `#`,
truncated to 100 characters; else `"Untitled Plan"`. -/
def exitTitle : List Str → Str
  | [] => S "Untitled Plan"
  | l :: rest =>
      let l := pyStrip l
      if strStartsWith l (S "# ") then pyStrip (l.drop 2)
      else if !l.isEmpty && !strStartsWith l (S "#") then l.take 100
      else exitTitle rest

/-- `_extract_plan_from_exit_tool` (source lines 1114–1152). Raises when an
`ExitPlanMode` block's `input` is not a dict or its truthy `plan` is not a
string (`.strip()` on a non-string). -/
def extract_plan_from_exit_tool (entry : PyVal) : Except Unit (Option Plan) :=
  match pyGetD (pyGetD entry (S "message") (.dict [])) (S "content") (.list []) with
  | .list items => goExit entry items
  | _ => .ok Option.none
where
  goExit (entry : PyVal) : List PyVal → Except Unit (Option Plan)
  | [] => .ok Option.none
  | item :: rest =>
      if item.isDict &&
         pyBeq (pyGetD item (S "type") .none) (.str (S "tool_use")) &&
         pyBeq (pyGetD item (S "name") .none) (.str (S "ExitPlanMode")) then
        match pyGetD item (S "input") (.dict []) with
        | .dict ikvs =>
            let plan_content := (dGet? ikvs (S "plan")).getD (.str [])
            if truthy plan_content then
              let slug := pyGetD entry (S "slug") (.str [])
              let path :=
                if truthy slug then S "~/.claude/plans/" ++ (pyStr slug ++ S ".md")
                else S "~/.claude/plans/unknown.md"
              match plan_content with
              | .str pc => .ok (some ⟨exitTitle (pySplitChar '\n' (pyStrip pc)), path, pc⟩)
              | _ => .error ()
            else goExit entry rest
        | _ => .error ()
      else goExit entry rest

/-- `_extract_message_metadata` (source lines 969–980); raises when `usage`
is present but not a dict. -/
def extract_message_metadata (entry : PyVal) : Except Unit Metadata :=
  let msg := pyGetD entry (S "message") (.dict [])
  match pyGetD msg (S "usage") (.dict []) with
  | .dict ukvs =>
      .ok ⟨pyGetD msg (S "model") (.str []),
           (dGet? ukvs (S "input_tokens")).getD (.int 0),
           (dGet? ukvs (S "output_tokens")).getD (.int 0),
           (dGet? ukvs (S "cache_read_input_tokens")).getD (.int 0),
           pyGetD entry (S "cwd") (.str []),
           pyGetD entry (S "gitBranch") (.str [])⟩
  | _ => .error ()

/-- Normalization of a `tool_result`'s `content` (source lines 350–354 and
653–659): a block list is newline-joined over its dict blocks' `text`
fields (raising on non-string texts), anything else goes through `str()`. -/
def normalizeResultText (v : PyVal) : Except Unit Str :=
  match v with
  | .list bs =>
      joinVals (S "\n")
        (bs.filterMap (fun b =>
          match b with
          | .dict kvs => some ((dGet? kvs (S "text")).getD (.str []))
          | _ => Option.none))
  | v => .ok (pyStr v)

/-! ## Subagent extraction (`extract_subagent_conversation`, lines 105–174) -/

/-- What one block contributes to a subagent record's `thinking` messages
(source lines 144–152). -/
def thinkMsgOf (ts : PyVal) (item : PyVal) : Option SubMsg :=
  if item.isDict && pyBeq (pyGetD item (S "type") .none) (.str (S "thinking")) then
    let t := pyGetD item (S "thinking") (.str [])
    if truthy t then some ⟨"thinking", t, ts⟩ else Option.none
  else Option.none

/-- The `thinking` messages a subagent assistant record contributes
(source lines 143–152). -/
def thinkingMsgs (content : PyVal) (ts : PyVal) : List SubMsg :=
  match content with
  | .list items => items.filterMap (thinkMsgOf ts)
  | _ => []

/-- The message a subagent user record contributes (source lines 126–133). -/
def subUserMsgs (content ts : PyVal) : List SubMsg :=
  match extract_text_content content false with
  | .error _ => []
  | .ok text =>
      if !text.isEmpty && !(pyStrip text).isEmpty then [⟨"user", .str text, ts⟩] else []

/-- The message a subagent assistant record's flattened text contributes
(source lines 154–160); an empty list both on blank text and on a raised
flatten (whose partial effects — model capture and thinking messages —
have already been applied). -/
def subAssistantMsgs (detailed : Bool) (content ts : PyVal) : List SubMsg :=
  match extract_text_content content detailed with
  | .error _ => []
  | .ok text =>
      if !text.isEmpty && !(pyStrip text).isEmpty then [⟨"assistant", .str text, ts⟩] else []

/-- One record of a subagent side file; state is `(model, messages)`. -/
def subStep (detailed include_thinking : Bool) (st : PyVal × List SubMsg) (entry : PyVal) :
    PyVal × List SubMsg :=
  match entry with
  | .dict _ =>
    let ty := pyGetD entry (S "type") (.str [])
    let ts := tsField entry
    if pyBeq ty (.str (S "user")) && dictHasKey entry (S "message") then
      let msg := pyGetD entry (S "message") .none
      if msg.isDict && pyBeq (pyGetD msg (S "role") .none) (.str (S "user")) then
        (st.1, st.2 ++ subUserMsgs (pyGetD msg (S "content") (.str [])) ts)
      else st
    else if pyBeq ty (.str (S "assistant")) && dictHasKey entry (S "message") then
      let msg := pyGetD entry (S "message") .none
      if msg.isDict && pyBeq (pyGetD msg (S "role") .none) (.str (S "assistant")) then
        let model := if !truthy st.1 then pyGetD msg (S "model") (.str []) else st.1
        let content := pyGetD msg (S "content") (.list [])
        let thinks := if include_thinking then thinkingMsgs content ts else []
        (model, st.2 ++ thinks ++ subAssistantMsgs detailed content ts)
      else st
    else st
  | _ => st

/-- `extract_subagent_conversation` over the decoded lines of a side file. -/
def extract_subagent_conversation (agentId : Str) (lines : List PyVal)
    (detailed include_thinking : Bool) : SubConv :=
  let (model, messages) := lines.foldl (subStep detailed include_thinking) (.str [], [])
  ⟨agentId, model, messages⟩

/-! ## The stream correlator (`extract_conversation`, source lines 295–576)

The per-record dispatch is modelled as a function from pass state and one
decoded record to the updated state plus the list of entries this record
appends (the source only ever appends to `conversation`, so collecting a
record's appends in order is observationally the fold the source runs).
`Except.error` carries the partially-updated data at the point where the
source raises and its blanket `except Exception: continue` keeps what was
already mutated and skips the rest of the record. -/

structure Ctx where
  detailed : Bool
  include_thinking : Bool
  subs : List (Str × List PyVal)

structure PassState where
  pending_questions : List (PyVal × PyVal)
  pending_task_tools : List (PyVal × TaskInfo)
  stats : Stats

def initState : PassState := ⟨[], [], initStats⟩

def lookupSub (subs : List (Str × List PyVal)) (aid : Str) : Option (List PyVal) :=
  match subs with
  | [] => Option.none
  | (k, v) :: rest => if k = aid then some v else lookupSub rest aid

/-- `models_used.add(model)` (source line 431): raises on unhashable values. -/
def addModel (st : Stats) (model : PyVal) : Except Stats Stats :=
  if truthy model then
    if hashable model then
      .ok { st with models_used :=
              if st.models_used.any (fun m => pyBeq m model) then st.models_used
              else st.models_used ++ [model] }
    else .error st
  else .ok st

/-- The tool-use counting loop (source lines 437–441): `tool_use_count` is
bumped before the per-name counter, so an unhashable name leaves the bump
in place and aborts the record. -/
def countTools (st : Stats) : List PyVal → Except Stats Stats
  | [] => .ok st
  | item :: rest =>
      if item.isDict && pyBeq (pyGetD item (S "type") .none) (.str (S "tool_use")) then
        let st := { st with tool_use_count := st.tool_use_count + 1 }
        let name := pyGetD item (S "name") (.str (S "unknown"))
        if hashable name then
          countTools { st with tools_used := counterIncr name st.tools_used } rest
        else .error st
      else countTools st rest

/-- The detailed-mode statistics block for one assistant record
(source lines 428–441), with its raise points. -/
def statsUpdate (st0 : Stats) (msg content : PyVal) : Except Stats Stats :=
  match addModel st0 (pyGetD msg (S "model") (.str [])) with
  | .error st => .error st
  | .ok st1 =>
      match pyGetD msg (S "usage") (.dict []) with
      | .dict ukvs =>
          let uget := fun k => (dGet? ukvs k).getD (.int 0)
          match pyAddInt st1.total_input_tokens (uget (S "input_tokens")) with
          | Option.none => .error st1
          | some a =>
              let st2 := { st1 with total_input_tokens := a }
              match pyAddInt st2.total_output_tokens (uget (S "output_tokens")) with
              | Option.none => .error st2
              | some b =>
                  let st3 := { st2 with total_output_tokens := b }
                  match pyAddInt st3.total_cache_read_tokens (uget (S "cache_read_input_tokens")) with
                  | Option.none => .error st3
                  | some c =>
                      let st4 := { st3 with total_cache_read_tokens := c }
                      match pyAddInt st4.total_cache_creation_tokens (uget (S "cache_creation_input_tokens")) with
                      | Option.none => .error st4
                      | some d =>
                          let st5 := { st4 with total_cache_creation_tokens := d }
                          match content with
                          | .list items => countTools st5 items
                          | _ => .ok st5
      | _ => .error st1

/-- Task-delegation registration (source lines 444–452). -/
def registerTasks (pt : List (PyVal × TaskInfo)) :
    List PyVal → Except (List (PyVal × TaskInfo)) (List (PyVal × TaskInfo))
  | [] => .ok pt
  | item :: rest =>
      if item.isDict && pyBeq (pyGetD item (S "type") .none) (.str (S "tool_use")) &&
         pyBeq (pyGetD item (S "name") .none) (.str (S "Task")) then
        match pyGetD item (S "input") (.dict []) with
        | .dict ikvs =>
            let ti : TaskInfo :=
              ⟨(dGet? ikvs (S "description")).getD (.str []),
               (dGet? ikvs (S "subagent_type")).getD (.str [])⟩
            let key := pyGetD item (S "id") (.str [])
            if hashable key then registerTasks (dinsert key ti pt) rest
            else .error pt
        | _ => .error pt
      else registerTasks pt rest

/-- Resolution of one matched `tool_result` against a pending delegated
task (source lines 356–376, before the `del`): emit a `subagent` entry when
the embedded agent id has a side file, else emit nothing. -/
def subagentResolve (ctx : Ctx) (entry : PyVal) (st : PassState) (es : List Entry)
    (tid : PyVal) (rtext : Str) : PassState × List Entry :=
  match agentIdSearch rtext with
  | some aid =>
      match lookupSub ctx.subs aid with
      | some lines =>
          let sub := extract_subagent_conversation aid lines ctx.detailed ctx.include_thinking
          let ti := (dlookup tid st.pending_task_tools).getD ⟨PyVal.str [], PyVal.str []⟩
          let st' :=
            if ctx.detailed then
              { st with stats := { st.stats with subagent_count := st.stats.subagent_count + 1 } }
            else st
          (st', es ++ [Entry.subagent ti.description ti.subagent_type sub.agent_id
                         sub.model sub.messages (tsField entry)])
      | Option.none => (st, es)
  | Option.none => (st, es)

/-- The subagent-result scan over a user record's `tool_result` blocks
(source lines 344–377). -/
def scanTaskResults (ctx : Ctx) (entry : PyVal) :
    PassState → List Entry → List PyVal → Except (PassState × List Entry) (PassState × List Entry)
  | st, es, [] => .ok (st, es)
  | st, es, item :: rest =>
      if item.isDict && pyBeq (pyGetD item (S "type") .none) (.str (S "tool_result")) then
        let tid := pyGetD item (S "tool_use_id") (.str [])
        if !hashable tid then .error (st, es)
        else if dcontains tid st.pending_task_tools then
          match normalizeResultText (pyGetD item (S "content") (.str [])) with
          | .error _ => .error (st, es)
          | .ok rtext =>
              let (st1, es1) := subagentResolve ctx entry st es tid rtext
              scanTaskResults ctx entry
                { st1 with pending_task_tools := derase tid st1.pending_task_tools } es1 rest
        else scanTaskResults ctx entry st es rest
      else scanTaskResults ctx entry st es rest

/-- Text emission for a user record (source lines 393–419). -/
def userText (st : PassState) (es : List Entry) (entry content : PyVal) :
    PassState × List Entry :=
  match extract_text_content content false with
  | .error _ => (st, es)
  | .ok text =>
      if !text.isEmpty && !(pyStrip text).isEmpty then
        let e :=
          if contains_plan_approval text then
            match parse_plan_content text with
            | some p => Entry.plan text p.title p.path p.content (tsField entry)
            | Option.none => Entry.user text (tsField entry)
          else Entry.user text (tsField entry)
        ({ st with stats := { st.stats with turn_count := st.stats.turn_count + 1 } }, es ++ [e])
      else (st, es)

/-- A user record after the tool-result scan: Q&A resolution (source lines
380–391, with its `continue`) and otherwise text emission. -/
def afterScan (st : PassState) (es : List Entry) (entry content : PyVal) :
    PassState × List Entry :=
  match extract_answers_from_entry entry with
  | .error _ => (st, es)
  | .ok (some (tid, answers)) =>
      if !hashable tid then (st, es)
      else
        match dlookup tid st.pending_questions with
        | some qs =>
            ({ st with pending_questions := derase tid st.pending_questions },
             es ++ [.qa qs answers (tsField entry)])
        | Option.none => userText st es entry content
  | .ok Option.none => userText st es entry content

/-- Dispatch for a `user` record (source lines 339–419). -/
def processUser (ctx : Ctx) (st : PassState) (entry : PyVal) : PassState × List Entry :=
  let msg := pyGetD entry (S "message") .none
  if msg.isDict && pyBeq (pyGetD msg (S "role") .none) (.str (S "user")) then
    let content := pyGetD msg (S "content") (.str [])
    match content with
    | .list items =>
        match scanTaskResults ctx entry st [] items with
        | .error (st', es) => (st', es)
        | .ok (st', es) => afterScan st' es entry content
    | _ => afterScan st [] entry content
  else (st, [])

/-- What one content block contributes to the thinking-block loop
(source lines 474–482). -/
def thinkBlockEntry (ts : PyVal) (item : PyVal) : Option Entry :=
  if item.isDict && pyBeq (pyGetD item (S "type") .none) (.str (S "thinking")) then
    let t := pyGetD item (S "thinking") (.str [])
    if truthy t then some (.thinking t ts) else Option.none
  else Option.none

/-- The thinking-block loop (source lines 473–482). -/
def thinkingEntries (content : PyVal) (ts : PyVal) : List Entry :=
  match content with
  | .list items => items.filterMap (thinkBlockEntry ts)
  | _ => []

/-- Text emission for an assistant record (source lines 484–515). -/
def assistantText (detailed : Bool) (st : PassState) (es : List Entry)
    (entry content : PyVal) : PassState × List Entry :=
  match extract_text_content content detailed with
  | .error _ => (st, es)
  | .ok text =>
      if !text.isEmpty && !(pyStrip text).isEmpty then
        if contains_plan_approval text then
          match parse_plan_content text with
          | some p => (st, es ++ [.plan text p.title p.path p.content (tsField entry)])
          | Option.none =>
              if detailed then
                match extract_message_metadata entry with
                | .error _ => (st, es)
                | .ok md => (st, es ++ [.assistant text (tsField entry) (some md)])
              else (st, es ++ [.assistant text (tsField entry) Option.none])
        else
          if detailed then
            match extract_message_metadata entry with
            | .error _ => (st, es)
            | .ok md => (st, es ++ [.assistant text (tsField entry) (some md)])
          else (st, es ++ [.assistant text (tsField entry) Option.none])
      else (st, es)

/-- The detailed-gated statistics step (source line 428). -/
def statsStepC (detailed : Bool) (st : Stats) (msg content : PyVal) : Except Stats Stats :=
  if detailed then statsUpdate st msg content else .ok st

/-- Task registration over content of any shape (source line 444's
`isinstance(content, list)` guard). -/
def registerTasksC (pt : List (PyVal × TaskInfo)) (content : PyVal) :
    Except (List (PyVal × TaskInfo)) (List (PyVal × TaskInfo)) :=
  match content with
  | .list items => registerTasks pt items
  | _ => .ok pt

/-- Registration of a pending question (source line 457), `none` when the
id is unhashable (the assignment raises). -/
def registerQuestion (pq : List (PyVal × PyVal)) :
    Option (PyVal × PyVal) → Option (List (PyVal × PyVal))
  | some (qid, qs) => if hashable qid then some (dinsert qid qs pq) else Option.none
  | Option.none => some pq

/-- Dispatch for an `assistant` record (source lines 422–515). -/
def processAssistant (ctx : Ctx) (st : PassState) (entry : PyVal) : PassState × List Entry :=
  let msg := pyGetD entry (S "message") .none
  if msg.isDict && pyBeq (pyGetD msg (S "role") .none) (.str (S "assistant")) then
    let content := pyGetD msg (S "content") (.list [])
    match statsStepC ctx.detailed st.stats msg content with
    | .error stats' => ({ st with stats := stats' }, [])
    | .ok stats' =>
        let st := { st with stats := stats' }
        match registerTasksC st.pending_task_tools content with
        | .error pt => ({ st with pending_task_tools := pt }, [])
        | .ok pt =>
            let st := { st with pending_task_tools := pt }
            match extract_questions_from_content content with
            | .error _ => (st, [])
            | .ok qaOpt =>
                match registerQuestion st.pending_questions qaOpt with
                | Option.none => (st, [])
                | some pq =>
                    let st := { st with pending_questions := pq }
                    match extract_plan_from_exit_tool entry with
                    | .error _ => (st, [])
                    | .ok (some p) =>
                        (st, [.plan p.content p.title p.path p.content (tsField entry)])
                    | .ok Option.none =>
                        let thinkEs :=
                          if ctx.include_thinking then thinkingEntries content (tsField entry) else []
                        assistantText ctx.detailed st thinkEs entry content
  else (st, [])

/-- `{duration_ms / 1000:.1f}` rendered from the exact rational value
(ties round half to even; the source formats the IEEE double, which can
differ from the exact value in borderline ULP cases no claim depends on). -/
def roundHalfEven (num den : Int) : Int :=
  let q := num.fdiv den
  let r := num.fmod den
  if 2 * r < den then q else if den < 2 * r then q + 1 else if q % 2 = 0 then q else q + 1

def fmtSecs (ms : Int) : Str :=
  let t := roundHalfEven ms 100
  let sign : Str := if t < 0 then ['-'] else []
  sign ++ natToStr (t.natAbs / 10) ++ ('.' :: natToStr (t.natAbs % 10))

def pyAsInt (v : PyVal) : Int :=
  match v with
  | .int n => n
  | .bool b => if b then 1 else 0
  | _ => 0

/-- Dispatch for a `system` record (source lines 518–543). -/
def processSystem (detailed : Bool) (st : PassState) (entry : PyVal) : PassState × List Entry :=
  let subtype := pyGetD entry (S "subtype") (.str [])
  let durStep :=
    if pyBeq subtype (.str (S "turn_duration")) then
      pyAddInt st.stats.total_duration_ms (pyGetD entry (S "durationMs") (.int 0))
    else some st.stats.total_duration_ms
  match durStep with
  | Option.none => (st, [])
  | some dur =>
      let st := { st with stats := { st.stats with total_duration_ms := dur } }
      if !detailed then (st, [])
      else
        let content := pyGetD entry (S "content") (.str [])
        let textVal : PyVal :=
          if pyBeq subtype (.str (S "turn_duration")) then
            .str (S "Turn completed in " ++ (fmtSecs (pyAsInt (pyGetD entry (S "durationMs") (.int 0))) ++ S "s"))
          else if pyBeq subtype (.str (S "local_command")) then
            .str (S "Command: " ++ pyStr content)
          else if truthy content then content
          else .str (pyStr (pyGetD entry (S "subtype") (.str (S "system"))))
        if truthy textVal then
          (st, [.system (S "ℹ️ System: " ++ pyStr textVal) (tsField entry)])
        else (st, [])

/-- Dispatch for a `progress` record in detailed mode (source lines 546–555). -/
def processProgress (st : PassState) (entry : PyVal) : PassState × List Entry :=
  match pyGetD entry (S "data") (.dict []) with
  | .dict dkvs =>
      let hook_event := (dGet? dkvs (S "hookEvent")).getD (.str [])
      let hook_name := (dGet? dkvs (S "hookName")).getD (.str [])
      if truthy hook_event then
        (st, [.system (S "⚙️ Hook: " ++ (pyStr hook_event ++ (S " (" ++ (pyStr hook_name ++ S ")"))))
                 (tsField entry)])
      else (st, [])
  | _ => (st, [])

/-- Version/branch capture from the first entry (source lines 334–336). -/
def captureVersion (st : PassState) (entry : PyVal) : PassState :=
  if truthy st.stats.session_version then st
  else { st with stats := { st.stats with
          session_version := pyGetD entry (S "version") (.str []),
          git_branch := pyGetD entry (S "gitBranch") (.str []) } }

/-- One record of the main loop (source lines 328–562): records that are
not dicts raise at `entry.get` and are skipped whole. -/
def processRecord (ctx : Ctx) (st : PassState) (entry : PyVal) : PassState × List Entry :=
  match entry with
  | .dict _ =>
      let st := captureVersion st entry
      let ty := pyGetD entry (S "type") (.str [])
      if pyBeq ty (.str (S "user")) && dictHasKey entry (S "message") then
        processUser ctx st entry
      else if pyBeq ty (.str (S "assistant")) && dictHasKey entry (S "message") then
        processAssistant ctx st entry
      else if pyBeq ty (.str (S "system")) then
        processSystem ctx.detailed st entry
      else if pyBeq ty (.str (S "progress")) && ctx.detailed then
        processProgress st entry
      else (st, [])
  | _ => (st, [])

def runLog (ctx : Ctx) : PassState → List PyVal → PassState × List Entry
  | st, [] => (st, [])
  | st, e :: rest =>
      let (st1, out1) := processRecord ctx st e
      let (st2, out2) := runLog ctx st1 rest
      (st2, out1 ++ out2)

/-- Lexicographic (code-point) order on Python strings. -/
def strLt : Str → Str → Bool
  | [], [] => false
  | [], _ :: _ => true
  | _ :: _, [] => false
  | a :: as, b :: bs => if a = b then strLt as bs else decide (a.toNat < b.toNat)

def insertSorted (s : Str) : List Str → List Str
  | [] => [s]
  | t :: rest => if strLt s t then s :: t :: rest else t :: insertSorted s rest

def sortStrs : List Str → List Str
  | [] => []
  | s :: rest => insertSorted s (sortStrs rest)

/-- `sorted(models_used)` (source line 568). A set of anything but strings
would make the source raise out of `extract_conversation`; that case is
modelled as the identity and is unreachable under the hypotheses of every
theorem evaluating a stats entry. -/
def sortModels (ms : List PyVal) : List PyVal :=
  if ms.all (fun m => match m with | .str _ => true | _ => false) then
    (sortStrs (ms.filterMap (fun m => match m with | .str s => some s | _ => Option.none))).map .str
  else ms

def normalizeStats (st : Stats) : Stats :=
  { st with models_used := sortModels st.models_used }

/-- `extract_conversation(jsonl_path, detailed, include_thinking)` over the
decoded lines of the log and the agent-id → decoded-side-file map that
`find_subagent_files` provides. -/
def extract_conversation (log : List PyVal) (subs : List (Str × List PyVal))
    (detailed include_thinking : Bool) : List Entry :=
  let (st, conv) := runLog ⟨detailed, include_thinking, subs⟩ initState log
  if detailed && !conv.isEmpty then conv ++ [.stats (normalizeStats st.stats)]
  else conv

/-! ## Bash correlator (`extract_bash_commands`, source lines 578–702)

A raise anywhere inside the processing loop is caught by the function-level
handler, which returns the commands collected so far (`Except.error`
carries them). -/

structure PendingBash where
  command : PyVal
  context : Str
  timestamp : PyVal
  tool_use_id : PyVal

structure BashCmd where
  command : PyVal
  context : Str
  timestamp : PyVal

structure BashState where
  current_context : List Str
  pending : List PendingBash
  cmds : List BashCmd

/-- The fixed failure markers (source lines 663–668). -/
def errorMarkers : List Str :=
  [S "command not found", S "No such file or directory", S "Permission denied", S "fatal:"]

/-- Error classification of a result (source lines 661–676): case-insensitive
containment of a marker in the first output line. -/
def bashHasError (result : Str) : Bool :=
  let first_line := pyLower ((pySplitChar '\n' result).headD [])
  errorMarkers.any (fun p => strContains first_line (pyLower p))

/-- Index of the first pending command whose stored id equals `tid`. -/
def findPendingIdx (tid : PyVal) : List PendingBash → Option Nat
  | [] => Option.none
  | p :: rest =>
      if pyBeq p.tool_use_id tid then some 0
      else (findPendingIdx tid rest).map (· + 1)

/-- One assistant content block of the bash pass (source lines 618–638). -/
def bashAssistantItem (entry : PyVal) (bs : BashState) (item : PyVal) :
    Except BashState BashState :=
  match item with
  | .dict kvs =>
      let ty := (dGet? kvs (S "type")).getD .none
      if pyBeq ty (.str (S "text")) then
        match (dGet? kvs (S "text")).getD (.str []) with
        | .str t =>
            let t := pyStrip t
            .ok (if t.isEmpty then bs else { bs with current_context := bs.current_context ++ [t] })
        | _ => .error bs
      else if pyBeq ty (.str (S "tool_use")) then
        match (dGet? kvs (S "name")).getD (.str []) with
        | .str nm =>
            if pyLower nm = S "bash" then
              match (dGet? kvs (S "input")).getD (.dict []) with
              | .dict ikvs =>
                  let command := (dGet? ikvs (S "command")).getD (.str [])
                  let tid := (dGet? kvs (S "id")).getD (.str [])
                  if truthy command then
                    .ok { bs with
                          pending := bs.pending ++
                            [⟨command, joinStr (S "\n\n") bs.current_context, tsField entry, tid⟩],
                          current_context := [] }
                  else .ok bs
              | _ => .error bs
            else .ok bs
        | _ => .error bs
      else .ok bs
  | _ => .ok bs

/-- One `tool_result` block of the bash pass (source lines 649–695):
identifier match first, else oldest-pending fallback; error results drop the
pairing, successes append the command with its captured context. -/
def bashToolResult (bs : BashState) (item : PyVal) : Except BashState BashState :=
  let tid := pyGetD item (S "tool_use_id") (.str [])
  match normalizeResultText (pyGetD item (S "content") (.str [])) with
  | .error _ => .error bs
  | .ok result =>
      let has_error := bashHasError result
      let (matched, pending') :=
        match (if truthy tid then findPendingIdx tid bs.pending else Option.none) with
        | some i => (bs.pending.get? i, bs.pending.eraseIdx i)
        | Option.none =>
            match bs.pending with
            | [] => (Option.none, [])
            | p :: rest => (some p, rest)
      match matched with
      | some cmd =>
          let cmds1 :=
            if has_error then bs.cmds
            else bs.cmds ++ [⟨cmd.command, cmd.context, cmd.timestamp⟩]
          .ok { bs with pending := pending', cmds := cmds1 }
      | Option.none => .ok { bs with pending := pending' }

def bashFoldItems (f : BashState → PyVal → Except BashState BashState) :
    BashState → List PyVal → Except BashState BashState
  | bs, [] => .ok bs
  | bs, item :: rest =>
      match f bs item with
      | .error b => .error b
      | .ok b => bashFoldItems f b rest

/-- One record of the bash pass (source lines 607–697). -/
def bashStep (bs : BashState) (entry : PyVal) : Except BashState BashState :=
  match entry with
  | .dict _ =>
      let ty := pyGetD entry (S "type") (.str [])
      if pyBeq ty (.str (S "assistant")) && dictHasKey entry (S "message") then
        let msg := pyGetD entry (S "message") .none
        if msg.isDict && pyBeq (pyGetD msg (S "role") .none) (.str (S "assistant")) then
          let content := pyGetD msg (S "content") (.list [])
          match content with
          | .list items => bashFoldItems (bashAssistantItem entry) bs items
          | .str s =>
              .ok (if (pyStrip s).isEmpty then bs
                   else { bs with current_context := bs.current_context ++ [pyStrip s] })
          | _ => .ok bs
        else .ok bs
      else if pyBeq ty (.str (S "user")) then
        let msg := pyGetD entry (S "message") (.dict [])
        let inner : Except BashState BashState :=
          if msg.isDict then
            match pyGetD msg (S "content") (.list []) with
            | .list items =>
                bashFoldItems
                  (fun b item =>
                    if item.isDict && pyBeq (pyGetD item (S "type") .none) (.str (S "tool_result")) then
                      bashToolResult b item
                    else .ok b)
                  bs items
            | _ => .ok bs
          else .ok bs
        match inner with
        | .error b => .error b
        | .ok bs1 => .ok { bs1 with current_context := [] }
      else .ok bs
  | _ => .error bs

def bashRun : BashState → List PyVal → List BashCmd
  | bs, [] => bs.cmds
  | bs, e :: rest =>
      match bashStep bs e with
      | .error b => b.cmds
      | .ok b => bashRun b rest

/-- `extract_bash_commands(jsonl_path)` over the decoded lines. -/
def extract_bash_commands (log : List PyVal) : List BashCmd :=
  bashRun ⟨[], [], []⟩ log

/-! ## Shared lemmas -/

theorem pyBeq_str_iff (v : PyVal) (s : Str) : pyBeq v (.str s) = true ↔ v = .str s := by
  cases v <;> simp [pyBeq]

/-- A block the flattener must always skip: a dict whose `type` is
`"tool_result"`. -/
def isToolResultBlock (item : PyVal) : Bool :=
  match item with
  | .dict kvs => pyBeq ((dGet? kvs (S "type")).getD .none) (.str (S "tool_result"))
  | _ => false

/-- A block list is join-safe when every `text` block carries a string
payload (the only raise source inside the flattener). -/
def textPayloadOk (item : PyVal) : Bool :=
  match item with
  | .dict kvs =>
      if pyBeq ((dGet? kvs (S "type")).getD .none) (.str (S "text")) then
        match (dGet? kvs (S "text")).getD (.str []) with
        | .str _ => true
        | _ => false
      else true
  | _ => true

theorem partsOf_toolResult (d : Bool) (item : PyVal) (h : isToolResultBlock item = true) :
    partsOf d item = [] := by
  cases item with
  | dict kvs =>
      simp only [isToolResultBlock] at h
      simp [partsOf, h, pyBeq_str_iff]
      intro hty
      rw [hty] at h
      simp [pyBeq] at h
      exact absurd h (by decide)
  | str s => simp [isToolResultBlock] at h
  | int n => simp [isToolResultBlock] at h
  | bool b => simp [isToolResultBlock] at h
  | none => simp [isToolResultBlock] at h
  | list xs => simp [isToolResultBlock] at h

theorem flattenParts_filter_toolResult (d : Bool) (l : List PyVal) :
    flattenParts d (l.filter (fun i => !isToolResultBlock i)) = flattenParts d l := by
  induction l with
  | nil => simp [flattenParts]
  | cons item rest ih =>
      cases htr : isToolResultBlock item
      · simp [flattenParts, List.filter_cons, htr] at ih ⊢
        exact ih
      · simp [flattenParts, List.filter_cons, htr, partsOf_toolResult d item htr] at ih ⊢
        exact ih

theorem joinVals_ok_of_strings (sep : Str) (parts : List PyVal)
    (h : ∀ p ∈ parts, ∃ s, p = PyVal.str s) : ∃ r, joinVals sep parts = .ok r := by
  induction parts with
  | nil => exact ⟨[], rfl⟩
  | cons p rest ih =>
      obtain ⟨s, hs⟩ := h p (by simp)
      subst hs
      obtain ⟨r, hr⟩ := ih (fun q hq => h q (by simp [hq]))
      cases rest with
      | nil => exact ⟨s, rfl⟩
      | cons q qs => exact ⟨s ++ sep ++ r, by simp [joinVals, hr]⟩

theorem partsOf_strings (d : Bool) (item : PyVal) (h : textPayloadOk item = true) :
    ∀ p ∈ partsOf d item, ∃ s, p = PyVal.str s := by
  intro p hp
  cases item with
  | dict kvs =>
      simp only [partsOf] at hp
      split at hp
      · rename_i hty
        simp only [List.mem_singleton] at hp
        subst hp
        simp only [textPayloadOk, hty, if_pos] at h
        split at h
        · rename_i s hs; exact ⟨s, by simp [hs]⟩
        · exact absurd h (by simp)
      · split at hp
        · simp at hp
        · split at hp
          · simp only [List.mem_cons, List.mem_singleton] at hp
            rcases hp with hp | hp | hp
            · exact ⟨_, hp⟩
            · exact ⟨_, hp⟩
            · simp at hp
          · simp at hp
  | str s => simp [partsOf] at hp
  | int n => simp [partsOf] at hp
  | bool b => simp [partsOf] at hp
  | none => simp [partsOf] at hp
  | list xs => simp [partsOf] at hp

theorem flattenParts_strings (d : Bool) (l : List PyVal)
    (h : ∀ item ∈ l, textPayloadOk item = true) :
    ∀ p ∈ flattenParts d l, ∃ s, p = PyVal.str s := by
  intro p hp
  simp only [flattenParts, List.mem_flatMap] at hp
  obtain ⟨item, hitem, hp⟩ := hp
  exact partsOf_strings d item (h item hitem) p hp

/-- C8 (amended): the flattener returns string content unchanged, always
skips `tool_result` blocks, falls back to `str(content)` on any content
that is neither a string nor a list — and it is total (never raises)
whenever every `text` block of a block list carries a string payload. -/
theorem extract_text_content_spec :
    (∀ (s : Str) (d : Bool), extract_text_content (.str s) d = .ok s) ∧
    (∀ (l : List PyVal) (d : Bool),
        extract_text_content (.list (l.filter (fun i => !isToolResultBlock i))) d =
          extract_text_content (.list l) d) ∧
    (∀ (v : PyVal) (d : Bool),
        (match v with | .str _ => False | .list _ => False | _ => True) →
        extract_text_content v d = .ok (pyStr v)) ∧
    (∀ (l : List PyVal) (d : Bool), (∀ item ∈ l, textPayloadOk item = true) →
        ∃ r, extract_text_content (.list l) d = .ok r) := by
  refine ⟨fun s d => rfl, fun l d => ?_, fun v d hv => ?_, fun l d h => ?_⟩
  · simp [extract_text_content, flattenParts_filter_toolResult]
  · cases v <;> simp_all [extract_text_content, pyStr]
  · exact joinVals_ok_of_strings _ _ (flattenParts_strings d l h)

/-- C8, counterexample to the claim as stated: the flattener is not total —
a `text` block whose `text` field is the number 5 (decodable JSON) makes
`"\n".join` raise `TypeError`, modelled as `Except.error`. -/
theorem extract_text_content_not_total :
    extract_text_content (.list [.dict [(S "type", .str (S "text")), (S "text", .int 5)]]) false
      = .error () := rfl

/-- C8 witness: the amended theorem applied at concrete inputs. -/
theorem extract_text_content_spec_witness :
    extract_text_content (.str (S "hello")) false = .ok (S "hello") ∧
    extract_text_content
        (.list [.dict [(S "type", .str (S "tool_result"))], .dict [(S "type", .str (S "text")), (S "text", .str (S "a"))]]) false =
      extract_text_content (.list [.dict [(S "type", .str (S "text")), (S "text", .str (S "a"))]]) false ∧
    extract_text_content (.int 7) true = .ok (S "7") := by
  refine ⟨extract_text_content_spec.1 (S "hello") false, ?_, ?_⟩
  · have h := extract_text_content_spec.2.1
      [.dict [(S "type", .str (S "tool_result"))], .dict [(S "type", .str (S "text")), (S "text", .str (S "a"))]] false
    have e : ([PyVal.dict [(S "type", .str (S "tool_result"))], .dict [(S "type", .str (S "text")), (S "text", .str (S "a"))]].filter
        (fun i => !isToolResultBlock i)) = [PyVal.dict [(S "type", .str (S "text")), (S "text", .str (S "a"))]] := by rfl
    rw [e] at h
    exact h.symm
  · exact extract_text_content_spec.2.2.1 (.int 7) true trivial

/-! ## C3: bash extraction pairing discipline -/

/-- A `tool_result` block as it appears in a user record's content array. -/
def mkToolResultItem (tid rv : PyVal) : PyVal :=
  .dict [(S "type", .str (S "tool_result")), (S "tool_use_id", tid), (S "content", rv)]

/-- A `Bash` `tool_use` block as it appears in an assistant record. -/
def mkBashToolUse (cmdv tid : PyVal) : PyVal :=
  .dict [(S "type", .str (S "tool_use")), (S "name", .str (S "Bash")),
         (S "input", .dict [(S "command", cmdv)]), (S "id", tid)]

theorem pyGetD_toolResultItem_id (tid rv d : PyVal) :
    pyGetD (mkToolResultItem tid rv) (S "tool_use_id") d = tid := rfl

theorem pyGetD_toolResultItem_content (tid rv d : PyVal) :
    pyGetD (mkToolResultItem tid rv) (S "content") d = rv := rfl

/-- C3: for every `Bash` invocation and every `tool_result` block:
(1) registration captures the commentary accumulated so far as context and
resets the accumulator;
(2) a result whose first output line contains a failure marker leaves the
successful-commands list unchanged (the pairing is excluded);
(3) a result pairing with an identifier match appends the paired command
with its captured context;
(4) a result whose identifier matches no pending invocation (or is falsy)
is paired with the oldest still-pending invocation instead of being
discarded. -/
theorem extract_bash_commands_pairing :
    (∀ (bs : BashState) (entry cmdv tid : PyVal), truthy cmdv = true →
        bashAssistantItem entry bs (mkBashToolUse cmdv tid) =
          .ok ⟨[], bs.pending ++ [⟨cmdv, joinStr (S "\n\n") bs.current_context, tsField entry, tid⟩],
               bs.cmds⟩) ∧
    (∀ (bs : BashState) (tid rv : PyVal) (result : Str),
        normalizeResultText rv = .ok result → bashHasError result = true →
        ∃ p', bashToolResult bs (mkToolResultItem tid rv) =
          .ok ⟨bs.current_context, p', bs.cmds⟩) ∧
    (∀ (bs : BashState) (tid rv : PyVal) (result : Str) (i : Nat) (cmd : PendingBash),
        normalizeResultText rv = .ok result → bashHasError result = false →
        truthy tid = true → findPendingIdx tid bs.pending = some i →
        bs.pending.get? i = some cmd →
        bashToolResult bs (mkToolResultItem tid rv) =
          .ok ⟨bs.current_context, bs.pending.eraseIdx i,
               bs.cmds ++ [⟨cmd.command, cmd.context, cmd.timestamp⟩]⟩) ∧
    (∀ (bs : BashState) (tid rv : PyVal) (result : Str) (p : PendingBash) (rest : List PendingBash),
        normalizeResultText rv = .ok result →
        (truthy tid = false ∨ findPendingIdx tid bs.pending = Option.none) →
        bs.pending = p :: rest →
        bashToolResult bs (mkToolResultItem tid rv) =
          .ok ⟨bs.current_context, rest,
               bs.cmds ++ (if bashHasError result then [] else [⟨p.command, p.context, p.timestamp⟩])⟩) := by
  refine ⟨?_, ?_, ?_, ?_⟩
  · intro bs entry cmdv tid hc
    have hred : bashAssistantItem entry bs (mkBashToolUse cmdv tid) =
        (if truthy cmdv then
          Except.ok ⟨[], bs.pending ++
              [⟨cmdv, joinStr (S "\n\n") bs.current_context, tsField entry, tid⟩], bs.cmds⟩
         else .ok bs) := rfl
    rw [hred, if_pos hc]
  · intro bs tid rv result hnorm herr
    simp only [bashToolResult, pyGetD_toolResultItem_id, pyGetD_toolResultItem_content, hnorm, herr]
    cases htr : truthy tid
    · simp only [htr, Bool.false_eq_true, if_false]
      cases bs.pending with
      | nil => exact ⟨[], rfl⟩
      | cons p rest => exact ⟨rest, rfl⟩
    · simp only [htr, if_true]
      cases hf : findPendingIdx tid bs.pending with
      | none =>
          simp only [hf]
          cases bs.pending with
          | nil => exact ⟨[], rfl⟩
          | cons p rest => exact ⟨rest, rfl⟩
      | some i =>
          simp only [hf]
          cases hg : (bs.pending.get? i) with
          | none => exact ⟨bs.pending.eraseIdx i, by simp [hg]⟩
          | some cmd => exact ⟨bs.pending.eraseIdx i, by simp [hg]⟩
  · intro bs tid rv result i cmd hnorm herr htid hfind hget
    simp only [bashToolResult, pyGetD_toolResultItem_id, pyGetD_toolResultItem_content,
      hnorm, htid, if_true, hfind, hget, herr]
    rfl
  · intro bs tid rv result p rest hnorm hmiss hpend
    simp only [bashToolResult, pyGetD_toolResultItem_id, pyGetD_toolResultItem_content, hnorm]
    rcases hmiss with hmiss | hmiss
    · simp only [hmiss, Bool.false_eq_true, if_false, hpend]
      cases h : bashHasError result <;> simp [h]
    · simp only [hpend] at hmiss ⊢
      cases htr : truthy tid
      · simp only [htr, Bool.false_eq_true, if_false]
        cases h : bashHasError result <;> simp [h]
      · simp only [htr, if_true, hmiss]
        cases h : bashHasError result <;> simp [h]

/-- C3 witness: each conjunct applied at concrete inputs. -/
theorem extract_bash_commands_pairing_witness :
    (bashAssistantItem (.dict [(S "timestamp", .str (S "t"))])
        ⟨[S "setup"], [], []⟩ (mkBashToolUse (.str (S "ls")) (.str (S "id1"))) =
      .ok ⟨[], [⟨.str (S "ls"), S "setup", .str (S "t"), .str (S "id1")⟩], []⟩) ∧
    (∃ p', bashToolResult ⟨[], [⟨.str (S "ls"), S "ctx", .str (S "t"), .str (S "id1")⟩], []⟩
        (mkToolResultItem (.str (S "id1")) (.str (S "fatal: oops"))) =
      .ok ⟨[], p', []⟩) ∧
    (bashToolResult ⟨[], [⟨.str (S "ls"), S "ctx", .str (S "t"), .str (S "id1")⟩], []⟩
        (mkToolResultItem (.str (S "id1")) (.str (S "a.py"))) =
      .ok ⟨[], [], [⟨.str (S "ls"), S "ctx", .str (S "t")⟩]⟩) ∧
    (bashToolResult ⟨[], [⟨.str (S "ls"), S "ctx", .str (S "t"), .str (S "id1")⟩], []⟩
        (mkToolResultItem (.str (S "other")) (.str (S "a.py"))) =
      .ok ⟨[], [], [⟨.str (S "ls"), S "ctx", .str (S "t")⟩]⟩) := by
  refine ⟨?_, ?_, ?_, ?_⟩
  · exact extract_bash_commands_pairing.1 ⟨[S "setup"], [], []⟩
      (.dict [(S "timestamp", .str (S "t"))]) (.str (S "ls")) (.str (S "id1")) (by decide)
  · exact extract_bash_commands_pairing.2.1
      ⟨[], [⟨.str (S "ls"), S "ctx", .str (S "t"), .str (S "id1")⟩], []⟩
      (.str (S "id1")) (.str (S "fatal: oops")) (S "fatal: oops") rfl (by decide)
  · exact extract_bash_commands_pairing.2.2.1
      ⟨[], [⟨.str (S "ls"), S "ctx", .str (S "t"), .str (S "id1")⟩], []⟩
      (.str (S "id1")) (.str (S "a.py")) (S "a.py") 0
      ⟨.str (S "ls"), S "ctx", .str (S "t"), .str (S "id1")⟩ rfl (by decide) (by decide)
      (by decide) rfl
  · have h := extract_bash_commands_pairing.2.2.2
      ⟨[], [⟨.str (S "ls"), S "ctx", .str (S "t"), .str (S "id1")⟩], []⟩
      (.str (S "other")) (.str (S "a.py")) (S "a.py")
      ⟨.str (S "ls"), S "ctx", .str (S "t"), .str (S "id1")⟩ [] rfl
      (Or.inr (by decide)) rfl
    simpa using h

/-! ## C5: at most one pending entry per identifier, later write wins -/

def exPayload : Except α α → α
  | .ok a => a
  | .error a => a

/-- Both tables of a pass state satisfy the key-distinctness invariant. -/
def TablesOk (st : PassState) : Prop :=
  KeysDistinct st.pending_questions ∧ KeysDistinct st.pending_task_tools

theorem registerTasks_keysDistinct (items : List PyVal) (pt : List (PyVal × TaskInfo))
    (h : KeysDistinct pt) : KeysDistinct (exPayload (registerTasks pt items)) := by
  induction items generalizing pt with
  | nil => exact h
  | cons item rest ih =>
      simp only [registerTasks]
      split
      · split
        · split
          · exact ih _ (dinsert_keysDistinct _ _ _ h)
          · exact h
        · exact h
      · exact ih _ h

theorem subagentResolve_tables (ctx : Ctx) (entry : PyVal) (st : PassState)
    (es : List Entry) (tid : PyVal) (rtext : Str) :
    (subagentResolve ctx entry st es tid rtext).1.pending_questions = st.pending_questions ∧
    (subagentResolve ctx entry st es tid rtext).1.pending_task_tools = st.pending_task_tools := by
  unfold subagentResolve
  split
  · split
    · split
      · exact ⟨rfl, rfl⟩
      · exact ⟨rfl, rfl⟩
    · exact ⟨rfl, rfl⟩
  · exact ⟨rfl, rfl⟩

theorem scanTaskResults_tablesOk (ctx : Ctx) (entry : PyVal) (items : List PyVal)
    (st : PassState) (es : List Entry) (h : TablesOk st) :
    TablesOk (exPayload ((scanTaskResults ctx entry st es items).map Prod.fst |>.mapError Prod.fst)) := by
  induction items generalizing st es with
  | nil => exact h
  | cons item rest ih =>
      simp only [scanTaskResults]
      split
      · split
        · exact h
        · split
          · split
            · exact h
            · refine ih _ _ ⟨?_, derase_keysDistinct _ _ ?_⟩
              · rw [(subagentResolve_tables ctx entry st es _ _).1]
                exact h.1
              · rw [(subagentResolve_tables ctx entry st es _ _).2]
                exact h.2
          · exact ih _ _ h
      · exact ih _ _ h

theorem userText_tables (st : PassState) (es : List Entry) (entry content : PyVal) :
    (userText st es entry content).1.pending_questions = st.pending_questions ∧
    (userText st es entry content).1.pending_task_tools = st.pending_task_tools := by
  unfold userText
  split
  · exact ⟨rfl, rfl⟩
  · split
    · exact ⟨rfl, rfl⟩
    · exact ⟨rfl, rfl⟩

theorem afterScan_tablesOk (st : PassState) (es : List Entry) (entry content : PyVal)
    (h : TablesOk st) : TablesOk (afterScan st es entry content).1 := by
  unfold afterScan
  split
  · exact h
  · split
    · exact h
    · split
      · exact ⟨derase_keysDistinct _ _ h.1, h.2⟩
      · refine ⟨?_, ?_⟩
        · rw [(userText_tables st es entry content).1]; exact h.1
        · rw [(userText_tables st es entry content).2]; exact h.2
  · refine ⟨?_, ?_⟩
    · rw [(userText_tables st es entry content).1]; exact h.1
    · rw [(userText_tables st es entry content).2]; exact h.2

theorem processUser_tablesOk (ctx : Ctx) (st : PassState) (entry : PyVal)
    (h : TablesOk st) : TablesOk (processUser ctx st entry).1 := by
  unfold processUser
  dsimp only
  split
  · split
    · rename_i cv itemsV heqC
      have hscan := scanTaskResults_tablesOk ctx entry itemsV st [] h
      split
      · rename_i stA esA hse
        rw [hse] at hscan
        simpa using hscan
      · rename_i stA esA hse
        rw [hse] at hscan
        exact afterScan_tablesOk _ _ _ _ (by simpa using hscan)
    · exact afterScan_tablesOk _ _ _ _ h
  · exact h

theorem assistantText_tables (d : Bool) (st : PassState) (es : List Entry)
    (entry content : PyVal) :
    (assistantText d st es entry content).1 = st := by
  unfold assistantText
  repeat' split
  all_goals rfl

theorem registerTasksC_keysDistinct (pt : List (PyVal × TaskInfo)) (content : PyVal)
    (h : KeysDistinct pt) : KeysDistinct (exPayload (registerTasksC pt content)) := by
  cases content with
  | list items => exact registerTasks_keysDistinct items pt h
  | str s => exact h
  | int n => exact h
  | bool b => exact h
  | none => exact h
  | dict kvs => exact h

theorem registerQuestion_keysDistinct (pq : List (PyVal × PyVal)) (qaOpt : Option (PyVal × PyVal))
    (pq' : List (PyVal × PyVal)) (h : KeysDistinct pq)
    (heq : registerQuestion pq qaOpt = some pq') : KeysDistinct pq' := by
  cases qaOpt with
  | none => cases heq; exact h
  | some p =>
      obtain ⟨qid, qs⟩ := p
      simp only [registerQuestion] at heq
      split at heq
      · cases heq; exact dinsert_keysDistinct _ _ _ h
      · cases heq

theorem processAssistant_tablesOk (ctx : Ctx) (st : PassState) (entry : PyVal)
    (h : TablesOk st) : TablesOk (processAssistant ctx st entry).1 := by
  unfold processAssistant
  dsimp only
  split
  · split
    · exact h
    · split
      · rename_i pt hreg
        refine ⟨h.1, ?_⟩
        have h2 := registerTasksC_keysDistinct st.pending_task_tools
          (pyGetD (pyGetD entry (S "message") .none) (S "content") (.list [])) h.2
        rw [hreg] at h2
        exact h2
      · rename_i pt hreg
        have h2 := registerTasksC_keysDistinct st.pending_task_tools
          (pyGetD (pyGetD entry (S "message") .none) (S "content") (.list [])) h.2
        rw [hreg] at h2
        split
        · exact ⟨h.1, h2⟩
        · split
          · exact ⟨h.1, h2⟩
          · rename_i pq hq
            have h3 := registerQuestion_keysDistinct st.pending_questions _ pq h.1 hq
            split
            · exact ⟨h3, h2⟩
            · exact ⟨h3, h2⟩
            · rw [assistantText_tables]
              exact ⟨h3, h2⟩
  · exact h

theorem captureVersion_tables (st : PassState) (entry : PyVal) :
    (captureVersion st entry).pending_questions = st.pending_questions ∧
    (captureVersion st entry).pending_task_tools = st.pending_task_tools := by
  unfold captureVersion
  split
  · exact ⟨rfl, rfl⟩
  · exact ⟨rfl, rfl⟩

theorem captureVersion_tablesOk (st : PassState) (entry : PyVal) (h : TablesOk st) :
    TablesOk (captureVersion st entry) := by
  refine ⟨?_, ?_⟩
  · rw [(captureVersion_tables st entry).1]; exact h.1
  · rw [(captureVersion_tables st entry).2]; exact h.2

theorem processSystem_tables (d : Bool) (st : PassState) (entry : PyVal) :
    (processSystem d st entry).1.pending_questions = st.pending_questions ∧
    (processSystem d st entry).1.pending_task_tools = st.pending_task_tools := by
  unfold processSystem
  dsimp only
  repeat' split
  all_goals exact ⟨rfl, rfl⟩

theorem processProgress_tables (st : PassState) (entry : PyVal) :
    (processProgress st entry).1.pending_questions = st.pending_questions ∧
    (processProgress st entry).1.pending_task_tools = st.pending_task_tools := by
  unfold processProgress
  dsimp only
  repeat' split
  all_goals exact ⟨rfl, rfl⟩

theorem processRecord_tablesOk (ctx : Ctx) (st : PassState) (entry : PyVal)
    (h : TablesOk st) : TablesOk (processRecord ctx st entry).1 := by
  unfold processRecord
  dsimp only
  split
  · rename_i kvs
    have hcap := captureVersion_tablesOk st (PyVal.dict kvs) h
    split
    · exact processUser_tablesOk _ _ _ hcap
    · split
      · exact processAssistant_tablesOk _ _ _ hcap
      · split
        · refine ⟨?_, ?_⟩
          · rw [(processSystem_tables ctx.detailed _ _).1]; exact hcap.1
          · rw [(processSystem_tables ctx.detailed _ _).2]; exact hcap.2
        · split
          · refine ⟨?_, ?_⟩
            · rw [(processProgress_tables _ _).1]; exact hcap.1
            · rw [(processProgress_tables _ _).2]; exact hcap.2
          · exact hcap
  · exact h

theorem runLog_tablesOk (ctx : Ctx) (log : List PyVal) (st : PassState)
    (h : TablesOk st) : TablesOk (runLog ctx st log).1 := by
  induction log generalizing st with
  | nil => exact h
  | cons e rest ih =>
      simp only [runLog]
      exact ih _ (processRecord_tablesOk ctx st e h)

/-- C5: throughout a pass — after any processed prefix of any log — each
pairing table (pending questions, pending task delegations) holds at most
one entry per identifier (no two live keys equal under Python `==`), and a
registration with an already-present identifier overwrites the earlier
value: looking the identifier up afterwards yields the later value. -/
theorem pending_tables_at_most_one :
    (∀ (detailed include_thinking : Bool) (subs : List (Str × List PyVal)) (log : List PyVal),
        KeysDistinct (runLog ⟨detailed, include_thinking, subs⟩ initState log).1.pending_questions ∧
        KeysDistinct (runLog ⟨detailed, include_thinking, subs⟩ initState log).1.pending_task_tools) ∧
    (∀ (k : PyVal) (v : TaskInfo) (m : List (PyVal × TaskInfo)),
        dlookup k (dinsert k v m) = some v) ∧
    (∀ (k : PyVal) (v : PyVal) (m : List (PyVal × PyVal)),
        dlookup k (dinsert k v m) = some v) := by
  refine ⟨fun d t subs log => ?_, fun k v m => dlookup_dinsert k v m,
    fun k v m => dlookup_dinsert k v m⟩
  exact runLog_tablesOk _ log initState ⟨List.Pairwise.nil, List.Pairwise.nil⟩

/-! ## C1: entry counts versus record counts -/

/-- Entries other than `thinking`, `subagent` and `stats`: of these a record
can contribute at most one. -/
def isCore (e : Entry) : Bool :=
  !(e.role == "thinking" || e.role == "subagent" || e.role == "stats")

def coreCount (es : List Entry) : Nat := es.countP (fun e => isCore e)

/-- Entries other than the trailing `stats` entry (the count the claim as
frozen bounds). -/
def nonStatsCount (es : List Entry) : Nat := es.countP (fun e => !(e.role == "stats"))

theorem coreCount_append (a b : List Entry) :
    coreCount (a ++ b) = coreCount a + coreCount b := List.countP_append _ _ _

theorem subagentResolve_coreCount (ctx : Ctx) (entry : PyVal) (st : PassState)
    (es : List Entry) (tid : PyVal) (rtext : Str) :
    coreCount (subagentResolve ctx entry st es tid rtext).2 = coreCount es := by
  unfold subagentResolve
  repeat' split
  all_goals simp [coreCount_append, coreCount, List.countP_cons, isCore, Entry.role]

theorem scanTaskResults_coreCount (ctx : Ctx) (entry : PyVal) (items : List PyVal)
    (st : PassState) (es : List Entry) :
    coreCount (exPayload ((scanTaskResults ctx entry st es items).map Prod.snd |>.mapError Prod.snd)) =
      coreCount es := by
  induction items generalizing st es with
  | nil => rfl
  | cons item rest ih =>
      simp only [scanTaskResults]
      split
      · split
        · rfl
        · split
          · split
            · rfl
            · rw [ih]
              exact subagentResolve_coreCount ctx entry st es _ _
          · exact ih _ _
      · exact ih _ _

theorem userText_coreCount (st : PassState) (es : List Entry) (entry content : PyVal) :
    coreCount (userText st es entry content).2 ≤ coreCount es + 1 := by
  unfold userText
  repeat' split
  all_goals simp [coreCount_append, coreCount, List.countP_cons, isCore, Entry.role]

theorem afterScan_coreCount (st : PassState) (es : List Entry) (entry content : PyVal) :
    coreCount (afterScan st es entry content).2 ≤ coreCount es + 1 := by
  unfold afterScan
  split
  · simp [coreCount]
  · split
    · simp [coreCount]
    · split
      · simp [coreCount_append, coreCount, List.countP_cons, isCore, Entry.role]
      · exact userText_coreCount _ _ _ _
  · exact userText_coreCount _ _ _ _

theorem processUser_coreCount (ctx : Ctx) (st : PassState) (entry : PyVal) :
    coreCount (processUser ctx st entry).2 ≤ 1 := by
  unfold processUser
  dsimp only
  split
  · split
    · rename_i cv itemsV heqC
      have hscan := scanTaskResults_coreCount ctx entry itemsV st []
      split
      · rename_i stA esA hse
        rw [hse] at hscan
        simp only [Except.map, Except.mapError, exPayload] at hscan
        rw [hscan]
        simp [coreCount]
      · rename_i stA esA hse
        rw [hse] at hscan
        simp only [Except.map, Except.mapError, exPayload] at hscan
        calc coreCount (afterScan stA esA entry _).2 ≤ coreCount esA + 1 :=
              afterScan_coreCount _ _ _ _
          _ ≤ 1 := by rw [hscan]; rfl
    · simpa using afterScan_coreCount st [] entry _
  · simp [coreCount]

theorem thinkingEntries_roles (content ts : PyVal) :
    ∀ e ∈ thinkingEntries content ts, e.role = "thinking" := by
  unfold thinkingEntries
  split
  · intro e he
    simp only [List.mem_filterMap] at he
    obtain ⟨item, _, hf⟩ := he
    unfold thinkBlockEntry at hf
    split at hf
    · dsimp only at hf
      split at hf
      · cases hf; rfl
      · cases hf
    · cases hf
  · intro e he
    simp at he

theorem thinkingEntries_coreCount (content ts : PyVal) :
    coreCount (thinkingEntries content ts) = 0 := by
  rw [coreCount, List.countP_eq_zero]
  intro e he
  have hr := thinkingEntries_roles content ts e he
  simp [isCore, hr]

theorem assistantText_coreCount (d : Bool) (st : PassState) (es : List Entry)
    (entry content : PyVal) :
    coreCount (assistantText d st es entry content).2 ≤ coreCount es + 1 := by
  unfold assistantText
  repeat' split
  all_goals simp [coreCount_append, coreCount, List.countP_cons, isCore, Entry.role]

theorem processAssistant_coreCount (ctx : Ctx) (st : PassState) (entry : PyVal) :
    coreCount (processAssistant ctx st entry).2 ≤ 1 := by
  unfold processAssistant
  dsimp only
  split
  · split
    · simp [coreCount]
    · split
      · simp [coreCount]
      · split
        · simp [coreCount]
        · split
          · simp [coreCount]
          · split
            · simp [coreCount]
            · simp [coreCount, List.countP_cons, isCore, Entry.role]
            · calc coreCount (assistantText ctx.detailed _ _ entry _).2
                    ≤ coreCount (if ctx.include_thinking then
                        thinkingEntries (pyGetD (pyGetD entry (S "message") .none) (S "content") (.list [])) (tsField entry)
                      else []) + 1 := assistantText_coreCount _ _ _ _ _
                _ ≤ 1 := by
                    split
                    · rw [thinkingEntries_coreCount]
                    · rfl
  · simp [coreCount]

theorem processSystem_coreCount (d : Bool) (st : PassState) (entry : PyVal) :
    coreCount (processSystem d st entry).2 ≤ 1 := by
  unfold processSystem
  dsimp only
  repeat' split
  all_goals simp [coreCount, List.countP_cons, isCore, Entry.role]

theorem processProgress_coreCount (st : PassState) (entry : PyVal) :
    coreCount (processProgress st entry).2 ≤ 1 := by
  unfold processProgress
  dsimp only
  repeat' split
  all_goals simp [coreCount, List.countP_cons, isCore, Entry.role]

theorem processRecord_coreCount (ctx : Ctx) (st : PassState) (entry : PyVal) :
    coreCount (processRecord ctx st entry).2 ≤ 1 := by
  unfold processRecord
  dsimp only
  split
  · split
    · exact processUser_coreCount _ _ _
    · split
      · exact processAssistant_coreCount _ _ _
      · split
        · exact processSystem_coreCount _ _ _
        · split
          · exact processProgress_coreCount _ _
          · simp [coreCount]
  · simp [coreCount]

theorem runLog_coreCount (ctx : Ctx) (log : List PyVal) (st : PassState) :
    coreCount (runLog ctx st log).2 ≤ log.length := by
  induction log generalizing st with
  | nil => simp [runLog, coreCount]
  | cons e rest ih =>
      simp only [runLog, List.length_cons]
      calc coreCount ((processRecord ctx st e).2 ++ (runLog ctx (processRecord ctx st e).1 rest).2)
          = coreCount (processRecord ctx st e).2 + coreCount (runLog ctx (processRecord ctx st e).1 rest).2 :=
            coreCount_append _ _
        _ ≤ 1 + rest.length :=
            Nat.add_le_add (processRecord_coreCount ctx st e) (ih _)
        _ = rest.length + 1 := Nat.add_comm _ _

/-- C1 (amended): for every log, the number of emitted entries other than
`thinking`, `subagent` and `stats` entries is at most the number of
records; `thinking` and `subagent` entries can exceed one per record, so
the bound of the claim as frozen holds only once they are excluded too. -/
theorem entry_count_le_records (log : List PyVal) (subs : List (Str × List PyVal))
    (detailed include_thinking : Bool) :
    coreCount (extract_conversation log subs detailed include_thinking) ≤ log.length := by
  unfold extract_conversation
  dsimp only
  split
  · rw [coreCount_append]
    have h := runLog_coreCount ⟨detailed, include_thinking, subs⟩ log initState
    simpa [coreCount, List.countP_cons, isCore, Entry.role] using h
  · exact runLog_coreCount _ log initState

/-- C1, counterexample to the claim as frozen: one assistant record holding
two reasoning blocks yields two `thinking` entries with `include_thinking`
set — more non-stats entries than records. -/
theorem entry_count_counterexample :
    ¬ (nonStatsCount (extract_conversation
        [.dict [(S "type", .str (S "assistant")),
                (S "message", .dict [(S "role", .str (S "assistant")),
                  (S "content", .list [.dict [(S "type", .str (S "thinking")), (S "thinking", .str (S "a"))],
                                       .dict [(S "type", .str (S "thinking")), (S "thinking", .str (S "b"))]])])]]
        [] false true) ≤
      ([.dict [(S "type", .str (S "assistant")),
               (S "message", .dict [(S "role", .str (S "assistant")),
                 (S "content", .list [.dict [(S "type", .str (S "thinking")), (S "thinking", .str (S "a"))],
                                      .dict [(S "type", .str (S "thinking")), (S "thinking", .str (S "b"))]])])]] : List PyVal).length) := by
  intro h
  have : nonStatsCount (extract_conversation
        [.dict [(S "type", .str (S "assistant")),
                (S "message", .dict [(S "role", .str (S "assistant")),
                  (S "content", .list [.dict [(S "type", .str (S "thinking")), (S "thinking", .str (S "a"))],
                                       .dict [(S "type", .str (S "thinking")), (S "thinking", .str (S "b"))]])])]]
        [] false true) = 2 := rfl
  rw [this] at h
  simp at h

/-! ## Membership characterization of each handler's emissions
(shared by the reasoning on C4, C9 and C10). -/

theorem mem_userText (st : PassState) (es : List Entry) (entry content : PyVal)
    (e : Entry) (he : e ∈ (userText st es entry content).2) :
    e ∈ es ∨ ((e.role = "user" ∨ e.role = "plan") ∧ e.ts = tsField entry) := by
  unfold userText at he
  split at he
  · exact Or.inl he
  · split at he
    · rw [List.mem_append] at he
      rcases he with he | he
      · exact Or.inl he
      · simp only [List.mem_singleton] at he
        subst he
        right
        split
        · split
          · exact ⟨Or.inr rfl, rfl⟩
          · exact ⟨Or.inl rfl, rfl⟩
        · exact ⟨Or.inl rfl, rfl⟩
    · exact Or.inl he

theorem mem_afterScan (st : PassState) (es : List Entry) (entry content : PyVal)
    (e : Entry) (he : e ∈ (afterScan st es entry content).2) :
    e ∈ es ∨ ((e.role = "user" ∨ e.role = "plan" ∨ e.role = "qa") ∧ e.ts = tsField entry) := by
  unfold afterScan at he
  split at he
  · exact Or.inl he
  · split at he
    · exact Or.inl he
    · split at he
      · rw [List.mem_append] at he
        rcases he with he | he
        · exact Or.inl he
        · simp only [List.mem_singleton] at he
          subst he
          exact Or.inr ⟨Or.inr (Or.inr rfl), rfl⟩
      · rcases mem_userText st es entry content e he with h | ⟨hr, ht⟩
        · exact Or.inl h
        · exact Or.inr ⟨hr.imp id Or.inl, ht⟩
  · rcases mem_userText st es entry content e he with h | ⟨hr, ht⟩
    · exact Or.inl h
    · exact Or.inr ⟨hr.imp id Or.inl, ht⟩

theorem mem_subagentResolve (ctx : Ctx) (entry : PyVal) (st : PassState)
    (es : List Entry) (tid : PyVal) (rtext : Str)
    (e : Entry) (he : e ∈ (subagentResolve ctx entry st es tid rtext).2) :
    e ∈ es ∨ (e.role = "subagent" ∧ e.ts = tsField entry) := by
  unfold subagentResolve at he
  split at he
  · split at he
    · rw [List.mem_append] at he
      rcases he with he | he
      · exact Or.inl he
      · simp only [List.mem_singleton] at he
        subst he
        exact Or.inr ⟨rfl, rfl⟩
    · exact Or.inl he
  · exact Or.inl he

theorem mem_scanTaskResults (ctx : Ctx) (entry : PyVal) (items : List PyVal)
    (st : PassState) (es : List Entry) (e : Entry)
    (he : e ∈ (exPayload ((scanTaskResults ctx entry st es items).map Prod.snd |>.mapError Prod.snd))) :
    e ∈ es ∨ (e.role = "subagent" ∧ e.ts = tsField entry) := by
  induction items generalizing st es with
  | nil => exact Or.inl he
  | cons item rest ih =>
      simp only [scanTaskResults] at he
      split at he
      · split at he
        · exact Or.inl he
        · split at he
          · split at he
            · exact Or.inl he
            · rcases ih _ _ he with h | h
              · exact mem_subagentResolve ctx entry st es _ _ e h
              · exact Or.inr h
          · exact ih _ _ he
      · exact ih _ _ he

theorem mem_processUser (ctx : Ctx) (st : PassState) (entry : PyVal)
    (e : Entry) (he : e ∈ (processUser ctx st entry).2) :
    (e.role = "user" ∨ e.role = "plan" ∨ e.role = "qa" ∨ e.role = "subagent") ∧
      e.ts = tsField entry := by
  unfold processUser at he
  dsimp only at he
  split at he
  · split at he
    · rename_i cv itemsV heqC
      split at he
      · rename_i stA esA hse
        have hmem : e ∈ exPayload ((scanTaskResults ctx entry st [] itemsV).map Prod.snd |>.mapError Prod.snd) := by
          rw [hse]
          simpa using he
        rcases mem_scanTaskResults ctx entry itemsV st [] e hmem with h | ⟨hr, ht⟩
        · simp at h
        · exact ⟨Or.inr (Or.inr (Or.inr hr)), ht⟩
      · rename_i stA esA hse
        rcases mem_afterScan stA esA entry _ e he with h | ⟨hr, ht⟩
        · have hmem : e ∈ exPayload ((scanTaskResults ctx entry st [] itemsV).map Prod.snd |>.mapError Prod.snd) := by
            rw [hse]
            simpa using h
          rcases mem_scanTaskResults ctx entry itemsV st [] e hmem with h2 | ⟨hr, ht⟩
          · simp at h2
          · exact ⟨Or.inr (Or.inr (Or.inr hr)), ht⟩
        · refine ⟨?_, ht⟩
          rcases hr with h | h | h
          · exact Or.inl h
          · exact Or.inr (Or.inl h)
          · exact Or.inr (Or.inr (Or.inl h))
    · rcases mem_afterScan st [] entry _ e he with h | ⟨hr, ht⟩
      · simp at h
      · refine ⟨?_, ht⟩
        rcases hr with h | h | h
        · exact Or.inl h
        · exact Or.inr (Or.inl h)
        · exact Or.inr (Or.inr (Or.inl h))
  · simp at he

theorem mem_thinkingEntries (content ts : PyVal) (e : Entry)
    (he : e ∈ thinkingEntries content ts) : e.role = "thinking" ∧ e.ts = ts := by
  unfold thinkingEntries at he
  split at he
  · simp only [List.mem_filterMap] at he
    obtain ⟨item, _, hf⟩ := he
    unfold thinkBlockEntry at hf
    split at hf
    · dsimp only at hf
      split at hf
      · cases hf; exact ⟨rfl, rfl⟩
      · cases hf
    · cases hf
  · simp at he

theorem mem_assistantText (d : Bool) (st : PassState) (es : List Entry)
    (entry content : PyVal) (e : Entry)
    (he : e ∈ (assistantText d st es entry content).2) :
    e ∈ es ∨ ((e.role = "assistant" ∨ e.role = "plan") ∧ e.ts = tsField entry) := by
  unfold assistantText at he
  split at he
  · exact Or.inl he
  · split at he
    · split at he
      · split at he
        · rw [List.mem_append] at he
          rcases he with he | he
          · exact Or.inl he
          · simp only [List.mem_singleton] at he
            subst he
            exact Or.inr ⟨Or.inr rfl, rfl⟩
        · split at he
          · split at he
            · exact Or.inl he
            · rw [List.mem_append] at he
              rcases he with he | he
              · exact Or.inl he
              · simp only [List.mem_singleton] at he
                subst he
                exact Or.inr ⟨Or.inl rfl, rfl⟩
          · rw [List.mem_append] at he
            rcases he with he | he
            · exact Or.inl he
            · simp only [List.mem_singleton] at he
              subst he
              exact Or.inr ⟨Or.inl rfl, rfl⟩
      · split at he
        · split at he
          · exact Or.inl he
          · rw [List.mem_append] at he
            rcases he with he | he
            · exact Or.inl he
            · simp only [List.mem_singleton] at he
              subst he
              exact Or.inr ⟨Or.inl rfl, rfl⟩
        · rw [List.mem_append] at he
          rcases he with he | he
          · exact Or.inl he
          · simp only [List.mem_singleton] at he
            subst he
            exact Or.inr ⟨Or.inl rfl, rfl⟩
    · exact Or.inl he

theorem mem_processAssistant (ctx : Ctx) (st : PassState) (entry : PyVal)
    (e : Entry) (he : e ∈ (processAssistant ctx st entry).2) :
    (e.role = "assistant" ∨ e.role = "plan" ∨
      (ctx.include_thinking = true ∧ e.role = "thinking")) ∧ e.ts = tsField entry := by
  unfold processAssistant at he
  dsimp only at he
  split at he
  · split at he
    · simp at he
    · split at he
      · simp at he
      · split at he
        · simp at he
        · split at he
          · simp at he
          · split at he
            · simp at he
            · simp only [List.mem_singleton] at he
              subst he
              exact ⟨Or.inr (Or.inl rfl), rfl⟩
            · rcases mem_assistantText ctx.detailed _ _ entry _ e he with h | ⟨hr, ht⟩
              · split at h
                · obtain ⟨hrole, hts⟩ := mem_thinkingEntries _ _ e h
                  rename_i hflag
                  exact ⟨Or.inr (Or.inr ⟨hflag, hrole⟩), hts⟩
                · simp at h
              · exact ⟨hr.imp id Or.inl, ht⟩
  · simp at he

theorem mem_processSystem (d : Bool) (st : PassState) (entry : PyVal)
    (e : Entry) (he : e ∈ (processSystem d st entry).2) :
    e.role = "system" ∧ e.ts = tsField entry := by
  unfold processSystem at he
  dsimp only at he
  repeat' split at he
  all_goals first
    | (simp only [List.mem_singleton] at he; subst he; exact ⟨rfl, rfl⟩)
    | simp at he

theorem mem_processProgress (st : PassState) (entry : PyVal)
    (e : Entry) (he : e ∈ (processProgress st entry).2) :
    e.role = "system" ∧ e.ts = tsField entry := by
  unfold processProgress at he
  dsimp only at he
  repeat' split at he
  all_goals first
    | (simp only [List.mem_singleton] at he; subst he; exact ⟨rfl, rfl⟩)
    | simp at he

theorem mem_processRecord (ctx : Ctx) (st : PassState) (entry : PyVal)
    (e : Entry) (he : e ∈ (processRecord ctx st entry).2) :
    (e.role = "user" ∨ e.role = "assistant" ∨ e.role = "plan" ∨ e.role = "qa" ∨
      e.role = "subagent" ∨ e.role = "system" ∨
      (ctx.include_thinking = true ∧ e.role = "thinking")) ∧ e.ts = tsField entry := by
  unfold processRecord at he
  dsimp only at he
  split at he
  · split at he
    · obtain ⟨hr, ht⟩ := mem_processUser ctx _ _ e he
      refine ⟨?_, ht⟩
      rcases hr with h | h | h | h
      · exact Or.inl h
      · exact Or.inr (Or.inr (Or.inl h))
      · exact Or.inr (Or.inr (Or.inr (Or.inl h)))
      · exact Or.inr (Or.inr (Or.inr (Or.inr (Or.inl h))))
    · split at he
      · obtain ⟨hr, ht⟩ := mem_processAssistant ctx _ _ e he
        refine ⟨?_, ht⟩
        rcases hr with h | h | h
        · exact Or.inr (Or.inl h)
        · exact Or.inr (Or.inr (Or.inl h))
        · exact Or.inr (Or.inr (Or.inr (Or.inr (Or.inr (Or.inr h)))))
      · split at he
        · obtain ⟨hr, ht⟩ := mem_processSystem ctx.detailed _ _ e he
          exact ⟨Or.inr (Or.inr (Or.inr (Or.inr (Or.inr (Or.inl hr))))), ht⟩
        · split at he
          · obtain ⟨hr, ht⟩ := mem_processProgress _ _ e he
            exact ⟨Or.inr (Or.inr (Or.inr (Or.inr (Or.inr (Or.inl hr))))), ht⟩
          · simp at he
  · simp at he

/-! ## C9: determinism and timestamp provenance -/

theorem mem_runLog_ts (ctx : Ctx) (log : List PyVal) (st : PassState) :
    ∀ e ∈ (runLog ctx st log).2, ∃ r ∈ log, e.ts = tsField r := by
  induction log generalizing st with
  | nil => intro e he; simp [runLog] at he
  | cons r rest ih =>
      intro e he
      simp only [runLog] at he
      rw [List.mem_append] at he
      rcases he with he | he
      · exact ⟨r, by simp, (mem_processRecord ctx st r e he).2⟩
      · obtain ⟨r', hr', ht⟩ := ih _ e he
        exact ⟨r', by simp [hr'], ht⟩

/-- C9: `extract_conversation` is a pure function of the decoded log, the
subagent side files and the two flags — two runs on the same data are
definitionally the same value — and every emitted entry's timestamp is
either `""` (the stats entry) or the `timestamp` field of some input record
(defaulting to `""` when absent); no clock or other state is consulted. -/
theorem extract_conversation_deterministic (log : List PyVal)
    (subs : List (Str × List PyVal)) (detailed include_thinking : Bool) :
    extract_conversation log subs detailed include_thinking =
      extract_conversation log subs detailed include_thinking ∧
    ∀ e ∈ extract_conversation log subs detailed include_thinking,
      e.ts = PyVal.str [] ∨ ∃ r ∈ log, e.ts = tsField r := by
  refine ⟨rfl, ?_⟩
  intro e he
  unfold extract_conversation at he
  dsimp only at he
  split at he
  · rw [List.mem_append] at he
    rcases he with he | he
    · exact Or.inr (mem_runLog_ts _ log initState e he)
    · simp only [List.mem_singleton] at he
      subst he
      exact Or.inl rfl
  · exact Or.inr (mem_runLog_ts _ log initState e he)

/-- C9 witness: the provenance disjunction evaluated at a concrete log. -/
theorem extract_conversation_deterministic_witness :
    ∀ e ∈ extract_conversation
        [.dict [(S "type", .str (S "user")),
                (S "message", .dict [(S "role", .str (S "user")), (S "content", .str (S "hi"))]),
                (S "timestamp", .str (S "t1"))]] [] false false,
      e.ts = PyVal.str [] ∨ ∃ r ∈ ([.dict [(S "type", .str (S "user")),
                (S "message", .dict [(S "role", .str (S "user")), (S "content", .str (S "hi"))]),
                (S "timestamp", .str (S "t1"))]] : List PyVal), e.ts = tsField r :=
  (extract_conversation_deterministic _ [] false false).2

/-! ## C4: thinking entries -/

def thinkCount (es : List Entry) : Nat := es.countP (fun e => e.role == "thinking")

/-- Reasoning blocks the thinking loop surfaces: `thinking`-typed dict
blocks with truthy `thinking` text. -/
def thinkBlockCount (content : PyVal) : Nat :=
  match content with
  | .list items =>
      items.countP (fun item =>
        item.isDict && pyBeq (pyGetD item (S "type") .none) (.str (S "thinking")) &&
        truthy (pyGetD item (S "thinking") (.str [])))
  | _ => 0

theorem thinkingEntries_length (content ts : PyVal) :
    (thinkingEntries content ts).length = thinkBlockCount content := by
  unfold thinkingEntries thinkBlockCount
  split
  · rename_i items
    induction items with
    | nil => rfl
    | cons item rest ih =>
        rw [List.filterMap_cons, List.countP_cons]
        by_cases hd : (item.isDict && pyBeq (pyGetD item (S "type") PyVal.none) (PyVal.str (S "thinking"))) = true
        · by_cases ht : truthy (pyGetD item (S "thinking") (PyVal.str [])) = true
          · have hf : thinkBlockEntry ts item =
                some (.thinking (pyGetD item (S "thinking") (PyVal.str [])) ts) := by
              simp [thinkBlockEntry, hd, ht]
            have hp : (item.isDict && pyBeq (pyGetD item (S "type") PyVal.none) (PyVal.str (S "thinking")) &&
                truthy (pyGetD item (S "thinking") (PyVal.str []))) = true := by
              simp [hd, ht]
            simp [hf, hp, ih]
          · have hf : thinkBlockEntry ts item = Option.none := by
              simp [thinkBlockEntry, hd, ht]
            have hp : (item.isDict && pyBeq (pyGetD item (S "type") PyVal.none) (PyVal.str (S "thinking")) &&
                truthy (pyGetD item (S "thinking") (PyVal.str []))) = false := by
              simp [hd, ht]
            simp [hf, hp, ih]
        · have hf : thinkBlockEntry ts item = Option.none := by
            simp [thinkBlockEntry, hd]
          have hp : (item.isDict && pyBeq (pyGetD item (S "type") PyVal.none) (PyVal.str (S "thinking")) &&
              truthy (pyGetD item (S "thinking") (PyVal.str []))) = false := by
            simp [hd]
          simp [hf, hp, ih]
  · rfl

theorem thinkCount_thinkingEntries (content ts : PyVal) :
    thinkCount (thinkingEntries content ts) = thinkBlockCount content := by
  rw [thinkCount, List.countP_eq_length.mpr, thinkingEntries_length]
  intro e he
  simp [(mem_thinkingEntries content ts e he).1]

theorem runLog_no_thinking (ctx : Ctx) (log : List PyVal) (st : PassState)
    (hflag : ctx.include_thinking = false) :
    ∀ e ∈ (runLog ctx st log).2, e.role ≠ "thinking" := by
  induction log generalizing st with
  | nil => intro e he; simp [runLog] at he
  | cons r rest ih =>
      intro e he
      simp only [runLog] at he
      rw [List.mem_append] at he
      rcases he with he | he
      · obtain ⟨hr, _⟩ := mem_processRecord ctx st r e he
        rcases hr with h | h | h | h | h | h | ⟨hf, _⟩
        · simp [h]
        · simp [h]
        · simp [h]
        · simp [h]
        · simp [h]
        · simp [h]
        · rw [hflag] at hf; cases hf
      · exact ih _ e he

theorem assistantText_thinkCount (d : Bool) (st : PassState) (es : List Entry)
    (entry content : PyVal) :
    thinkCount (assistantText d st es entry content).2 = thinkCount es := by
  unfold assistantText
  repeat' split
  all_goals simp [thinkCount, List.countP_append, List.countP_cons, Entry.role]

/-- C4 (amended): when the include-reasoning flag is off, no `thinking`
entry is ever emitted, for any log and either detail mode. When it is on,
an assistant record that is not short-circuited earlier — its detailed-mode
statistics step, task registration, question extraction and question-id
hashing do not raise, and it carries no `ExitPlanMode` plan — emits exactly
one `thinking` entry per reasoning block whose `thinking` text is truthy
(blocks with empty text are dropped, and an `ExitPlanMode` plan suppresses
the whole loop, contrary to the claim as frozen). -/
theorem thinking_entries_spec :
    (∀ (log : List PyVal) (subs : List (Str × List PyVal)) (detailed : Bool),
        thinkCount (extract_conversation log subs detailed false) = 0) ∧
    (∀ (ctx : Ctx) (st : PassState) (mkvs : List (Str × PyVal)) (entry : PyVal),
        pyGetD entry (S "message") .none = .dict mkvs →
        dGet? mkvs (S "role") = some (.str (S "assistant")) →
        (statsStepC ctx.detailed st.stats (.dict mkvs)
            (pyGetD (.dict mkvs) (S "content") (.list []))).isOk = true →
        (registerTasksC st.pending_task_tools
            (pyGetD (.dict mkvs) (S "content") (.list []))).isOk = true →
        (match extract_questions_from_content (pyGetD (.dict mkvs) (S "content") (.list [])) with
          | .ok (some (qid, _)) => hashable qid
          | .ok Option.none => true
          | .error _ => false) = true →
        extract_plan_from_exit_tool entry = .ok Option.none →
        thinkCount (processAssistant ctx st entry).2 =
          if ctx.include_thinking then
            thinkBlockCount (pyGetD (.dict mkvs) (S "content") (.list []))
          else 0) := by
  constructor
  · intro log subs detailed
    rw [thinkCount, List.countP_eq_zero]
    intro e he
    have hmem := he
    unfold extract_conversation at hmem
    dsimp only at hmem
    have hrole : e.role ≠ "thinking" := by
      split at hmem
      · rw [List.mem_append] at hmem
        rcases hmem with hmem | hmem
        · exact runLog_no_thinking _ log initState rfl e hmem
        · simp only [List.mem_singleton] at hmem
          subst hmem
          simp [Entry.role]
      · exact runLog_no_thinking _ log initState rfl e hmem
    simp [hrole]
  · intro ctx st mkvs entry hmsg hrole hstats hreg hq hexit
    unfold processAssistant
    dsimp only
    rw [hmsg]
    have hif : ((PyVal.dict mkvs).isDict &&
        pyBeq (pyGetD (.dict mkvs) (S "role") .none) (.str (S "assistant"))) = true := by
      simp [PyVal.isDict, pyGetD, hrole, pyBeq]
    rw [if_pos hif]
    obtain ⟨stats', hstats'⟩ : ∃ x, statsStepC ctx.detailed st.stats (.dict mkvs)
        (pyGetD (.dict mkvs) (S "content") (.list [])) = .ok x := by
      revert hstats
      cases statsStepC ctx.detailed st.stats (.dict mkvs) (pyGetD (.dict mkvs) (S "content") (.list [])) with
      | ok x => exact fun _ => ⟨x, rfl⟩
      | error x => intro h; cases h
    rw [hstats']
    obtain ⟨pt', hpt'⟩ : ∃ x, registerTasksC st.pending_task_tools
        (pyGetD (.dict mkvs) (S "content") (.list [])) = .ok x := by
      revert hreg
      cases registerTasksC st.pending_task_tools (pyGetD (.dict mkvs) (S "content") (.list [])) with
      | ok x => exact fun _ => ⟨x, rfl⟩
      | error x => intro h; cases h
    rw [hpt']
    revert hq
    cases hq2 : extract_questions_from_content (pyGetD (.dict mkvs) (S "content") (.list [])) with
    | error x => intro h; cases h
    | ok qaOpt =>
        intro hq
        cases qaOpt with
        | none =>
            simp only [registerQuestion]
            rw [hexit]
            rw [assistantText_thinkCount]
            split
            · exact thinkCount_thinkingEntries _ _
            · rfl
        | some p =>
            obtain ⟨qid, qs⟩ := p
            simp only [registerQuestion]
            rw [if_pos hq]
            rw [hexit]
            rw [assistantText_thinkCount]
            split
            · exact thinkCount_thinkingEntries _ _
            · rfl

/-- Reasoning blocks of a record as the claim counts them: every
`thinking`-typed block, truthy text or not. -/
def reasoningBlockCount (entry : PyVal) : Nat :=
  match pyGetD (pyGetD entry (S "message") (.dict [])) (S "content") (.list []) with
  | .list items =>
      items.countP (fun item =>
        item.isDict && pyBeq (pyGetD item (S "type") .none) (.str (S "thinking")))
  | _ => 0

/-- C4, counterexample to the claim as frozen: with `include_thinking` set,
a log whose two assistant records carry two reasoning blocks in total — one
next to an `ExitPlanMode` plan (the `continue` skips the loop), one with
empty thinking text (dropped by the truthiness guard) — yields zero
`thinking` entries, not one per block. -/
theorem thinking_entries_counterexample :
    (([.dict [(S "type", .str (S "assistant")),
              (S "message", .dict [(S "role", .str (S "assistant")),
                (S "content", .list [
                  .dict [(S "type", .str (S "tool_use")), (S "name", .str (S "ExitPlanMode")),
                         (S "input", .dict [(S "plan", .str (S "P"))])],
                  .dict [(S "type", .str (S "thinking")), (S "thinking", .str (S "x"))]])])],
       .dict [(S "type", .str (S "assistant")),
              (S "message", .dict [(S "role", .str (S "assistant")),
                (S "content", .list [
                  .dict [(S "type", .str (S "thinking")), (S "thinking", .str [])]])])]] : List PyVal).map
        reasoningBlockCount).sum = 2 ∧
    thinkCount (extract_conversation
      [.dict [(S "type", .str (S "assistant")),
              (S "message", .dict [(S "role", .str (S "assistant")),
                (S "content", .list [
                  .dict [(S "type", .str (S "tool_use")), (S "name", .str (S "ExitPlanMode")),
                         (S "input", .dict [(S "plan", .str (S "P"))])],
                  .dict [(S "type", .str (S "thinking")), (S "thinking", .str (S "x"))]])])],
       .dict [(S "type", .str (S "assistant")),
              (S "message", .dict [(S "role", .str (S "assistant")),
                (S "content", .list [
                  .dict [(S "type", .str (S "thinking")), (S "thinking", .str [])]])])]]
      [] false true) = 0 := ⟨rfl, rfl⟩

/-- C4 witness: the amended theorem applied at a concrete log (part one)
and at a concrete assistant record with one truthy and one empty reasoning
block (part two). -/
theorem thinking_entries_spec_witness :
    thinkCount (extract_conversation
      [.dict [(S "type", .str (S "user")),
              (S "message", .dict [(S "role", .str (S "user")), (S "content", .str (S "hi"))])]]
      [] true false) = 0 ∧
    thinkCount (processAssistant ⟨false, true, []⟩ initState
        (.dict [(S "message", .dict [(S "role", .str (S "assistant")),
          (S "content", .list [
            .dict [(S "type", .str (S "thinking")), (S "thinking", .str (S "x"))],
            .dict [(S "type", .str (S "thinking")), (S "thinking", .str [])]])])])).2 =
      if true then
        thinkBlockCount (pyGetD (.dict [(S "role", .str (S "assistant")),
          (S "content", .list [
            .dict [(S "type", .str (S "thinking")), (S "thinking", .str (S "x"))],
            .dict [(S "type", .str (S "thinking")), (S "thinking", .str [])]])]) (S "content") (.list []))
      else 0 := by
  constructor
  · exact thinking_entries_spec.1
      [.dict [(S "type", .str (S "user")),
              (S "message", .dict [(S "role", .str (S "user")), (S "content", .str (S "hi"))])]]
      [] true
  · exact thinking_entries_spec.2 ⟨false, true, []⟩ initState
      [(S "role", .str (S "assistant")),
       (S "content", .list [
         .dict [(S "type", .str (S "thinking")), (S "thinking", .str (S "x"))],
         .dict [(S "type", .str (S "thinking")), (S "thinking", .str [])]])]
      (.dict [(S "message", .dict [(S "role", .str (S "assistant")),
        (S "content", .list [
          .dict [(S "type", .str (S "thinking")), (S "thinking", .str (S "x"))],
          .dict [(S "type", .str (S "thinking")), (S "thinking", .str [])]])])])
      rfl rfl rfl rfl rfl rfl

/-! ## C10: whitespace-only records are suppressed -/

theorem userText_blank (st : PassState) (es : List Entry) (entry content : PyVal)
    (hb : ∀ t, extract_text_content content false = .ok t → pyStrip t = []) :
    userText st es entry content = (st, es) := by
  unfold userText
  split
  · rfl
  · rename_i t ht
    have hbt := hb t ht
    have : (!t.isEmpty && !(pyStrip t).isEmpty) = false := by
      simp [hbt]
    rw [this]
    simp

theorem assistantText_blank (d : Bool) (st : PassState) (es : List Entry)
    (entry content : PyVal)
    (hb : ∀ t, extract_text_content content d = .ok t → pyStrip t = []) :
    assistantText d st es entry content = (st, es) := by
  unfold assistantText
  split
  · rfl
  · rename_i t ht
    have hbt := hb t ht
    have : (!t.isEmpty && !(pyStrip t).isEmpty) = false := by
      simp [hbt]
    rw [this]
    simp

theorem afterScan_blank_roles (st : PassState) (es : List Entry) (entry content : PyVal)
    (hb : ∀ t, extract_text_content content false = .ok t → pyStrip t = []) :
    ∀ e ∈ (afterScan st es entry content).2, e ∈ es ∨ e.role = "qa" := by
  intro e he
  unfold afterScan at he
  split at he
  · exact Or.inl he
  · split at he
    · exact Or.inl he
    · split at he
      · rw [List.mem_append] at he
        rcases he with he | he
        · exact Or.inl he
        · simp only [List.mem_singleton] at he
          subst he
          exact Or.inr rfl
      · rw [userText_blank st es entry content hb] at he
        exact Or.inl he
  · rw [userText_blank st es entry content hb] at he
    exact Or.inl he

theorem mem_thinkingMsgs (content ts : PyVal) (m : SubMsg)
    (hm : m ∈ thinkingMsgs content ts) : m.role = "thinking" := by
  unfold thinkingMsgs at hm
  split at hm
  · simp only [List.mem_filterMap] at hm
    obtain ⟨item, _, hf⟩ := hm
    unfold thinkMsgOf at hf
    split at hf
    · dsimp only at hf
      split at hf
      · cases hf; rfl
      · cases hf
    · cases hf
  · simp at hm

theorem subUserMsgs_blank (content ts : PyVal)
    (hb : ∀ t, extract_text_content content false = .ok t → pyStrip t = []) :
    subUserMsgs content ts = [] := by
  unfold subUserMsgs
  split
  · rfl
  · rename_i t ht
    have hbt := hb t ht
    simp [hbt]

theorem subAssistantMsgs_blank (d : Bool) (content ts : PyVal)
    (hb : ∀ t, extract_text_content content d = .ok t → pyStrip t = []) :
    subAssistantMsgs d content ts = [] := by
  unfold subAssistantMsgs
  split
  · rfl
  · rename_i t ht
    have hbt := hb t ht
    simp [hbt]

/-- C10: a user or assistant record whose flattened text is empty or
whitespace-only adds no `user`/`assistant`/`system` entry: everything it
can emit is a `qa`/`subagent` entry (user records) or a `plan`/`thinking`
entry (assistant records) — so a record that also triggers none of those
emits nothing. The same suppression holds for the nested messages of
`extract_subagent_conversation`, where only `thinking` messages survive. -/
theorem blank_records_suppressed :
    (∀ (ctx : Ctx) (st : PassState) (entry : PyVal),
        (∀ t, extract_text_content
            (pyGetD (pyGetD entry (S "message") .none) (S "content") (.str [])) false = .ok t →
          pyStrip t = []) →
        ∀ e ∈ (processUser ctx st entry).2, e.role = "qa" ∨ e.role = "subagent") ∧
    (∀ (ctx : Ctx) (st : PassState) (entry : PyVal),
        (∀ t, extract_text_content
            (pyGetD (pyGetD entry (S "message") .none) (S "content") (.list [])) ctx.detailed = .ok t →
          pyStrip t = []) →
        ∀ e ∈ (processAssistant ctx st entry).2, e.role = "plan" ∨ e.role = "thinking") ∧
    (∀ (detailed include_thinking : Bool) (st : PyVal × List SubMsg) (entry : PyVal),
        (∀ t, extract_text_content
            (pyGetD (pyGetD entry (S "message") .none) (S "content") (.str [])) false = .ok t →
          pyStrip t = []) →
        (∀ t, extract_text_content
            (pyGetD (pyGetD entry (S "message") .none) (S "content") (.list [])) detailed = .ok t →
          pyStrip t = []) →
        ∀ m ∈ (subStep detailed include_thinking st entry).2, m ∈ st.2 ∨ m.role = "thinking") := by
  refine ⟨?_, ?_, ?_⟩
  · intro ctx st entry hb e he
    unfold processUser at he
    dsimp only at he
    split at he
    · split at he
      · rename_i cv itemsV heqC
        split at he
        · rename_i stA esA hse
          have hmem : e ∈ exPayload ((scanTaskResults ctx entry st [] itemsV).map Prod.snd |>.mapError Prod.snd) := by
            rw [hse]; simpa using he
          rcases mem_scanTaskResults ctx entry itemsV st [] e hmem with h | ⟨hr, _⟩
          · simp at h
          · exact Or.inr hr
        · rename_i stA esA hse
          rcases afterScan_blank_roles stA esA entry _ hb e he with h | hq
          · have hmem : e ∈ exPayload ((scanTaskResults ctx entry st [] itemsV).map Prod.snd |>.mapError Prod.snd) := by
              rw [hse]; simpa using h
            rcases mem_scanTaskResults ctx entry itemsV st [] e hmem with h2 | ⟨hr, _⟩
            · simp at h2
            · exact Or.inr hr
          · exact Or.inl hq
      · rcases afterScan_blank_roles st [] entry _ hb e he with h | hq
        · simp at h
        · exact Or.inl hq
    · simp at he
  · intro ctx st entry hb e he
    unfold processAssistant at he
    dsimp only at he
    split at he
    · split at he
      · simp at he
      · split at he
        · simp at he
        · split at he
          · simp at he
          · split at he
            · simp at he
            · split at he
              · simp at he
              · simp only [List.mem_singleton] at he
                subst he
                exact Or.inl rfl
              · rw [assistantText_blank ctx.detailed _ _ entry _ hb] at he
                split at he
                · exact Or.inr (mem_thinkingEntries _ _ e he).1
                · simp at he
    · simp at he
  · intro detailed include_thinking st entry hbu hba m hm
    unfold subStep at hm
    dsimp only at hm
    split at hm
    · split at hm
      · split at hm
        · rw [subUserMsgs_blank _ _ hbu] at hm
          rw [List.append_nil] at hm
          exact Or.inl hm
        · exact Or.inl hm
      · split at hm
        · split at hm
          · rw [subAssistantMsgs_blank detailed _ _ hba] at hm
            rw [List.append_nil] at hm
            rw [List.mem_append] at hm
            rcases hm with hm | hm
            · exact Or.inl hm
            · right
              split at hm
              · exact mem_thinkingMsgs _ _ m hm
              · simp at hm
          · exact Or.inl hm
        · exact Or.inl hm
    · exact Or.inl hm

/-- C10 witness: each part applied at a concrete whitespace-only record. -/
theorem blank_records_suppressed_witness :
    (∀ e ∈ (processUser ⟨false, false, []⟩ initState
        (.dict [(S "type", .str (S "user")),
                (S "message", .dict [(S "role", .str (S "user")), (S "content", .str (S "   "))])])).2,
      e.role = "qa" ∨ e.role = "subagent") ∧
    (∀ e ∈ (processAssistant ⟨false, false, []⟩ initState
        (.dict [(S "type", .str (S "assistant")),
                (S "message", .dict [(S "role", .str (S "assistant")),
                  (S "content", .list [.dict [(S "type", .str (S "text")), (S "text", .str (S " "))]])])])).2,
      e.role = "plan" ∨ e.role = "thinking") ∧
    (∀ m ∈ (subStep false false (.str [], [])
        (.dict [(S "type", .str (S "user")),
                (S "message", .dict [(S "role", .str (S "user")), (S "content", .str (S "  "))])])).2,
      m ∈ ([] : List SubMsg) ∨ m.role = "thinking") := by
  refine ⟨?_, ?_, ?_⟩
  · exact blank_records_suppressed.1 ⟨false, false, []⟩ initState _
      (fun t ht => by cases ht; rfl)
  · exact blank_records_suppressed.2.1 ⟨false, false, []⟩ initState _
      (fun t ht => by cases ht; rfl)
  · exact blank_records_suppressed.2.2 false false (.str [], []) _
      (fun t ht => by cases ht; rfl) (fun t ht => by cases ht; rfl)

/-! ## C2: subagent resolution -/

theorem word_not_ws (c : Char) (h : isWordChar c = true) : isPyWs c = false := by
  by_contra hc
  simp only [Bool.not_eq_false] at hc
  simp only [isPyWs, Bool.or_eq_true, decide_eq_true_eq] at hc
  rcases hc with ((((h1 | h1) | h1) | h1) | h1) | h1 <;> (subst h1; revert h; decide)

theorem takeWhile_word_all (aid : Str) (hw : ∀ c ∈ aid, isWordChar c = true) :
    aid.takeWhile isWordChar = aid := by
  induction aid with
  | nil => rfl
  | cons c rest ih =>
      rw [List.takeWhile_cons]
      rw [hw c (by simp)]
      simp only [if_true]
      rw [ih (fun c hc => hw c (by simp [hc]))]

theorem agentIdAt_concat (aid : Str) (hne : aid ≠ []) (hw : ∀ c ∈ aid, isWordChar c = true) :
    agentIdAt (S "agentId: " ++ aid) = some aid := by
  have h1 : agentIdAt (S "agentId: " ++ aid) =
      (let w := (aid.dropWhile isPyWs).takeWhile isWordChar
       if w.isEmpty then Option.none else some w) := rfl
  rw [h1]
  have h2 : aid.dropWhile isPyWs = aid := by
    cases aid with
    | nil => rfl
    | cons c rest =>
        rw [List.dropWhile_cons]
        rw [word_not_ws c (hw c (by simp))]
        simp
  rw [h2, takeWhile_word_all aid hw]
  cases aid with
  | nil => exact absurd rfl hne
  | cons c rest => simp

theorem agentIdSearch_concat (aid : Str) (hne : aid ≠ []) (hw : ∀ c ∈ aid, isWordChar c = true) :
    agentIdSearch (S "agentId: " ++ aid) = some aid := by
  unfold agentIdSearch
  rw [show S "agentId: " ++ aid = 'a' :: (S "gentId: " ++ aid) from rfl]
  simp only [searchSome]
  rw [show ('a' :: (S "gentId: " ++ aid)) = S "agentId: " ++ aid from rfl]
  rw [agentIdAt_concat aid hne hw]

/-- The `Task` invocation block of the C2 scenario (tool id `tu1`). -/
def c2TaskBlock (desc styp : PyVal) : PyVal :=
  .dict [(S "type", .str (S "tool_use")), (S "name", .str (S "Task")),
         (S "id", .str (S "tu1")),
         (S "input", .dict [(S "description", desc), (S "subagent_type", styp)])]

/-- An assistant record registering a delegated task. -/
def c2TaskRecord (desc styp ts1 : PyVal) : PyVal :=
  .dict [(S "type", .str (S "assistant")),
         (S "message", .dict [(S "role", .str (S "assistant")),
           (S "content", .list [c2TaskBlock desc styp])]),
         (S "timestamp", ts1)]

/-- A user record resolving it with a result that embeds `agentId: <aid>`. -/
def c2ResultRecord (aid : Str) (ts2 : PyVal) : PyVal :=
  .dict [(S "type", .str (S "user")),
         (S "message", .dict [(S "role", .str (S "user")),
           (S "content", .list [mkToolResultItem (.str (S "tu1")) (.str (S "agentId: " ++ aid))])]),
         (S "timestamp", ts2)]

def subCount (es : List Entry) : Nat := es.countP (fun e => e.role == "subagent")

theorem processAssistant_subCount_zero (ctx : Ctx) (st : PassState) (entry : PyVal) :
    subCount (processAssistant ctx st entry).2 = 0 := by
  rw [subCount, List.countP_eq_zero]
  intro e he
  obtain ⟨hr, _⟩ := mem_processAssistant ctx st entry e he
  rcases hr with h | h | ⟨_, h⟩ <;> simp [h]

/-- Processing the task-registration record leaves the question table alone
and registers `tu1` in the task table. -/
theorem c2_task_state (ctx : Ctx) (st : PassState) (desc styp ts1 : PyVal) :
    (processAssistant ctx st (c2TaskRecord desc styp ts1)).1.pending_task_tools =
      dinsert (.str (S "tu1")) ⟨desc, styp⟩ st.pending_task_tools ∧
    (processAssistant ctx st (c2TaskRecord desc styp ts1)).1.pending_questions =
      st.pending_questions := by
  obtain ⟨stats', hs⟩ : ∃ x, statsStepC ctx.detailed st.stats
      (pyGetD (c2TaskRecord desc styp ts1) (S "message") .none)
      (pyGetD (pyGetD (c2TaskRecord desc styp ts1) (S "message") .none) (S "content") (.list [])) = .ok x := by
    cases hd : ctx.detailed
    · exact ⟨st.stats, rfl⟩
    · exact ⟨_, rfl⟩
  unfold processAssistant
  dsimp only
  rw [if_pos (show ((pyGetD (c2TaskRecord desc styp ts1) (S "message") .none).isDict &&
      pyBeq (pyGetD (pyGetD (c2TaskRecord desc styp ts1) (S "message") .none) (S "role") .none)
        (.str (S "assistant"))) = true from rfl)]
  rw [hs]
  dsimp only
  rw [show registerTasksC st.pending_task_tools
      (pyGetD (pyGetD (c2TaskRecord desc styp ts1) (S "message") .none) (S "content") (.list [])) =
    .ok (dinsert (.str (S "tu1")) ⟨desc, styp⟩ st.pending_task_tools) from rfl]
  dsimp only
  rw [show extract_questions_from_content
      (pyGetD (pyGetD (c2TaskRecord desc styp ts1) (S "message") .none) (S "content") (.list [])) =
    .ok Option.none from rfl]
  dsimp only [registerQuestion]
  rw [show extract_plan_from_exit_tool (c2TaskRecord desc styp ts1) = .ok Option.none from rfl]
  dsimp only
  rw [assistantText_tables]
  exact ⟨rfl, rfl⟩

/-- Resolution step of the C2 scenario: the user record pairs the result
with the pending `tu1` task; a side file for the embedded agent id yields
exactly one `subagent` entry, no side file yields none. -/
theorem c2_user_step (ctx : Ctx) (pq0 : List (PyVal × PyVal)) (stats0 : Stats)
    (aid : Str) (desc styp ts2 : PyVal)
    (hne : aid ≠ []) (hw : ∀ c ∈ aid, isWordChar c = true) :
    subCount (processUser ctx ⟨pq0, [(.str (S "tu1"), ⟨desc, styp⟩)], stats0⟩
        (c2ResultRecord aid ts2)).2 =
      (if (lookupSub ctx.subs aid).isSome then 1 else 0) ∧
    (∀ lines, lookupSub ctx.subs aid = some lines →
      Entry.subagent desc styp aid
          (extract_subagent_conversation aid lines ctx.detailed ctx.include_thinking).model
          (extract_subagent_conversation aid lines ctx.detailed ctx.include_thinking).messages ts2 ∈
        (processUser ctx ⟨pq0, [(.str (S "tu1"), ⟨desc, styp⟩)], stats0⟩
          (c2ResultRecord aid ts2)).2) := by
  have hhop : processUser ctx ⟨pq0, [(.str (S "tu1"), ⟨desc, styp⟩)], stats0⟩ (c2ResultRecord aid ts2) =
      (let p := subagentResolve ctx (c2ResultRecord aid ts2)
          ⟨pq0, [(.str (S "tu1"), ⟨desc, styp⟩)], stats0⟩ [] (.str (S "tu1")) (S "agentId: " ++ aid)
       ({ p.1 with pending_task_tools := derase (.str (S "tu1")) p.1.pending_task_tools }, p.2)) := rfl
  rw [hhop]
  cases hlu : lookupSub ctx.subs aid with
  | none =>
      have hres : subagentResolve ctx (c2ResultRecord aid ts2)
          ⟨pq0, [(.str (S "tu1"), ⟨desc, styp⟩)], stats0⟩ [] (.str (S "tu1")) (S "agentId: " ++ aid) =
          (⟨pq0, [(.str (S "tu1"), ⟨desc, styp⟩)], stats0⟩, []) := by
        unfold subagentResolve
        rw [agentIdSearch_concat aid hne hw]
        dsimp only
        rw [hlu]
      rw [hres]
      refine ⟨rfl, ?_⟩
      intro lines hl
      simp at hl
  | some lines =>
      have hres : subagentResolve ctx (c2ResultRecord aid ts2)
          ⟨pq0, [(.str (S "tu1"), ⟨desc, styp⟩)], stats0⟩ [] (.str (S "tu1")) (S "agentId: " ++ aid) =
          ((if ctx.detailed then
              ⟨pq0, [(.str (S "tu1"), ⟨desc, styp⟩)],
               { stats0 with subagent_count := stats0.subagent_count + 1 }⟩
            else ⟨pq0, [(.str (S "tu1"), ⟨desc, styp⟩)], stats0⟩),
           [Entry.subagent desc styp aid
              (extract_subagent_conversation aid lines ctx.detailed ctx.include_thinking).model
              (extract_subagent_conversation aid lines ctx.detailed ctx.include_thinking).messages ts2]) := by
        unfold subagentResolve
        rw [agentIdSearch_concat aid hne hw]
        dsimp only
        rw [hlu]
        rfl
      rw [hres]
      constructor
      · cases hd : ctx.detailed <;> simp [subCount, List.countP_cons, Entry.role]
      · intro lines' hl'
        have : lines' = lines := by
          have := hl'.symm
          injection this
        subst this
        cases hd : ctx.detailed <;> simp [Entry.role]

theorem subCount_extract (log : List PyVal) (subs : List (Str × List PyVal)) (d t : Bool) :
    subCount (extract_conversation log subs d t) = subCount (runLog ⟨d, t, subs⟩ initState log).2 := by
  unfold extract_conversation
  dsimp only
  split
  · simp [subCount, List.countP_append, Entry.role]
  · rfl

theorem mem_extract (log : List PyVal) (subs : List (Str × List PyVal)) (d t : Bool) (e : Entry)
    (he : e ∈ (runLog ⟨d, t, subs⟩ initState log).2) : e ∈ extract_conversation log subs d t := by
  unfold extract_conversation
  dsimp only
  split
  · exact List.mem_append_left _ he
  · exact he

/-- C2 (amended): in a log where an assistant record registers a `Task`
invocation and a later user record's `tool_result` with the matching
identifier embeds `agentId: <aid>`: if a side file exists for `aid`,
`extract_conversation` emits exactly one `subagent` entry, whose nested
messages are exactly those extracted from that side file (possibly empty —
the claim's "at least one nested entry" does not hold for e.g. an empty
side file); if no side file exists, it emits zero `subagent` entries and
does not raise. -/
theorem subagent_resolution (detailed include_thinking : Bool)
    (subs : List (Str × List PyVal)) (aid : Str) (desc styp ts1 ts2 : PyVal)
    (hne : aid ≠ []) (hw : ∀ c ∈ aid, isWordChar c = true) :
    subCount (extract_conversation [c2TaskRecord desc styp ts1, c2ResultRecord aid ts2]
        subs detailed include_thinking) =
      (if (lookupSub subs aid).isSome then 1 else 0) ∧
    (∀ lines, lookupSub subs aid = some lines →
      Entry.subagent desc styp aid
          (extract_subagent_conversation aid lines detailed include_thinking).model
          (extract_subagent_conversation aid lines detailed include_thinking).messages ts2 ∈
        extract_conversation [c2TaskRecord desc styp ts1, c2ResultRecord aid ts2]
          subs detailed include_thinking) := by
  have hhop1 : processRecord ⟨detailed, include_thinking, subs⟩ initState (c2TaskRecord desc styp ts1) =
      processAssistant ⟨detailed, include_thinking, subs⟩
        (captureVersion initState (c2TaskRecord desc styp ts1)) (c2TaskRecord desc styp ts1) := rfl
  have hhop2 : ∀ st, processRecord ⟨detailed, include_thinking, subs⟩ st (c2ResultRecord aid ts2) =
      processUser ⟨detailed, include_thinking, subs⟩ (captureVersion st (c2ResultRecord aid ts2))
        (c2ResultRecord aid ts2) := fun st => rfl
  have hpt1 : (processRecord ⟨detailed, include_thinking, subs⟩ initState
      (c2TaskRecord desc styp ts1)).1.pending_task_tools = [(.str (S "tu1"), ⟨desc, styp⟩)] := by
    rw [hhop1, (c2_task_state _ _ desc styp ts1).1,
      (captureVersion_tables initState (c2TaskRecord desc styp ts1)).2]
    rfl
  have hstc : captureVersion (processRecord ⟨detailed, include_thinking, subs⟩ initState
        (c2TaskRecord desc styp ts1)).1 (c2ResultRecord aid ts2) =
      (⟨(captureVersion (processRecord ⟨detailed, include_thinking, subs⟩ initState
            (c2TaskRecord desc styp ts1)).1 (c2ResultRecord aid ts2)).pending_questions,
        [(.str (S "tu1"), ⟨desc, styp⟩)],
        (captureVersion (processRecord ⟨detailed, include_thinking, subs⟩ initState
            (c2TaskRecord desc styp ts1)).1 (c2ResultRecord aid ts2)).stats⟩ : PassState) := by
    have h := (captureVersion_tables (processRecord ⟨detailed, include_thinking, subs⟩ initState
        (c2TaskRecord desc styp ts1)).1 (c2ResultRecord aid ts2)).2.trans hpt1
    calc captureVersion (processRecord ⟨detailed, include_thinking, subs⟩ initState
            (c2TaskRecord desc styp ts1)).1 (c2ResultRecord aid ts2)
        = ⟨(captureVersion (processRecord ⟨detailed, include_thinking, subs⟩ initState
              (c2TaskRecord desc styp ts1)).1 (c2ResultRecord aid ts2)).pending_questions,
           (captureVersion (processRecord ⟨detailed, include_thinking, subs⟩ initState
              (c2TaskRecord desc styp ts1)).1 (c2ResultRecord aid ts2)).pending_task_tools,
           (captureVersion (processRecord ⟨detailed, include_thinking, subs⟩ initState
              (c2TaskRecord desc styp ts1)).1 (c2ResultRecord aid ts2)).stats⟩ := rfl
      _ = _ := by rw [h]
  have hconv : (runLog ⟨detailed, include_thinking, subs⟩ initState
      [c2TaskRecord desc styp ts1, c2ResultRecord aid ts2]).2 =
      (processRecord ⟨detailed, include_thinking, subs⟩ initState (c2TaskRecord desc styp ts1)).2 ++
      ((processRecord ⟨detailed, include_thinking, subs⟩
          (processRecord ⟨detailed, include_thinking, subs⟩ initState (c2TaskRecord desc styp ts1)).1
          (c2ResultRecord aid ts2)).2 ++ []) := rfl
  have hstep := c2_user_step ⟨detailed, include_thinking, subs⟩
    (captureVersion (processRecord ⟨detailed, include_thinking, subs⟩ initState
        (c2TaskRecord desc styp ts1)).1 (c2ResultRecord aid ts2)).pending_questions
    (captureVersion (processRecord ⟨detailed, include_thinking, subs⟩ initState
        (c2TaskRecord desc styp ts1)).1 (c2ResultRecord aid ts2)).stats
    aid desc styp ts2 hne hw
  constructor
  · rw [subCount_extract, hconv]
    rw [subCount, List.countP_append, List.countP_append]
    have h1 : List.countP (fun e => e.role == "subagent")
        (processRecord ⟨detailed, include_thinking, subs⟩ initState (c2TaskRecord desc styp ts1)).2 = 0 := by
      rw [hhop1]
      exact processAssistant_subCount_zero _ _ _
    rw [h1, hhop2, hstc]
    have h2 := hstep.1
    rw [subCount] at h2
    rw [h2]
    simp
  · intro lines hl
    apply mem_extract
    rw [hconv]
    apply List.mem_append_right
    apply List.mem_append_left
    rw [hhop2, hstc]
    exact hstep.2 lines hl

/-- C2 counterexample to the original wording: with a side file present
but empty, the conversation contains exactly one `subagent` entry whose
nested `messages` list is empty — the claimed "at least one nested entry"
fails. -/
theorem subagent_resolution_counterexample :
    extract_conversation
        [c2TaskRecord (.str (S "build")) (.str (S "general")) (.str (S "t1")),
         c2ResultRecord (S "zz") (.str (S "t2"))]
        [(S "zz", [])] false false =
      [Entry.subagent (.str (S "build")) (.str (S "general")) (S "zz")
        (.str []) [] (.str (S "t2"))] := by
  rfl

/-- Witness instantiating `subagent_resolution` at a concrete agent id. -/
theorem subagent_resolution_witness :
    (S "zz" ≠ ([] : Str)) ∧ (∀ c ∈ S "zz", isWordChar c = true) ∧
    subCount (extract_conversation
        [c2TaskRecord (.str (S "build")) (.str (S "general")) (.str (S "t1")),
         c2ResultRecord (S "zz") (.str (S "t2"))]
        [(S "zz", [])] false false) =
      (if (lookupSub [(S "zz", [])] (S "zz")).isSome then 1 else 0) :=
  ⟨by decide, by decide,
   (subagent_resolution false false [(S "zz", [])] (S "zz")
      (.str (S "build")) (.str (S "general")) (.str (S "t1")) (.str (S "t2"))
      (by decide) (by decide)).1⟩

/-! ## C6: plan-approval dispatch -/

theorem mem_dropWs {c : Char} (hw : isPyWs c = false) :
    ∀ {s : Str}, c ∈ s → c ∈ dropWs s := by
  intro s
  induction s with
  | nil => intro h; cases h
  | cons d rest ih =>
      intro h
      by_cases hd : isPyWs d = true
      · rcases List.mem_cons.mp h with h | h
        · subst h; rw [hw] at hd; cases hd
        · simpa [dropWs, hd] using ih h
      · simp only [dropWs, Bool.not_eq_true] at hd ⊢
        rw [hd]
        rcases List.mem_cons.mp h with h | h
        · simp [h]
        · exact List.mem_cons.mpr (Or.inr h)

/-- A record containing a non-whitespace character strips to something
non-empty. -/
theorem pyStrip_nonempty_of_mem {c : Char} {s : Str} (hc : c ∈ s)
    (hw : isPyWs c = false) : (pyStrip s).isEmpty = false := by
  have h1 : c ∈ dropWs s.reverse := mem_dropWs hw (List.mem_reverse.mpr hc)
  have h2 : c ∈ dropWs (dropWs s.reverse).reverse :=
    mem_dropWs hw (List.mem_reverse.mpr h1)
  rw [pyStrip]
  cases hd : dropWs (dropWs s.reverse).reverse with
  | nil => rw [hd] at h2; cases h2
  | cons _ _ => rfl

/-- `re.search` semantics: a successful search succeeds at some suffix. -/
theorem searchSome_suffix {α : Type} {p : Str → Option α} {text : Str} {a : α}
    (h : searchSome p text = some a) : ∃ s, s <:+ text ∧ p s = some a := by
  induction text with
  | nil => exact ⟨[], List.suffix_refl [], h⟩
  | cons c rest ih =>
      rw [searchSome] at h
      cases hp : p (c :: rest) with
      | some r =>
          rw [hp] at h
          cases h
          exact ⟨c :: rest, List.suffix_refl _, hp⟩
      | none =>
          rw [hp] at h
          obtain ⟨s, hs, hps⟩ := ih h
          exact ⟨s, hs.trans (List.suffix_cons c rest), hps⟩

theorem approvedAt_mem {s : Str} (h : approvedAt s = true) :
    ∃ c ∈ s, isPyWs c = false := by
  cases s with
  | nil => cases h
  | cons c rest =>
      rw [approvedAt, Bool.and_eq_true] at h
      have hc : c = '⏺' := by exact of_decide_eq_true h.1
      exact ⟨c, List.mem_cons_self c rest, by rw [hc]; rfl⟩

theorem planMarkerAt_mem {s : Str} (h : planMarkerAt s = true) :
    ∃ c ∈ s, isPyWs c = false := by
  rw [planMarkerAt] at h
  split at h
  · cases h
  · rename_i s1 heq
    rw [stripLit] at heq
    split at heq
    · rename_i hpre
      cases s with
      | nil => rw [strStartsWith] at hpre; simp [S] at hpre
      | cons c rest =>
          rw [strStartsWith, S] at hpre
          have hpre2 : c :: List.take 13 rest = 'P' :: S "lan saved to:" :=
            of_decide_eq_true hpre
          injection hpre2 with h1 h2
          exact ⟨c, List.mem_cons_self c rest, by rw [h1]; rfl⟩
    · cases heq

/-- Text containing the approval marker is non-blank (so the emission
guards in `userText`/`assistantText` pass). -/
theorem marker_nonblank {text : Str} (h : contains_plan_approval text = true) :
    text.isEmpty = false ∧ (pyStrip text).isEmpty = false := by
  rw [contains_plan_approval, Bool.or_eq_true] at h
  have hmem : ∃ c ∈ text, isPyWs c = false := by
    rcases h with h | h
    · obtain ⟨a, ha⟩ := Option.isSome_iff_exists.mp h
      obtain ⟨s, hs, hps⟩ := searchSome_suffix ha
      have hap : approvedAt s = true := by
        by_cases hb : approvedAt s = true
        · exact hb
        · simp [Bool.not_eq_true] at hb
          rw [hb] at hps; cases hps
      obtain ⟨c, hcs, hcw⟩ := approvedAt_mem hap
      exact ⟨c, hs.subset hcs, hcw⟩
    · obtain ⟨a, ha⟩ := Option.isSome_iff_exists.mp h
      obtain ⟨s, hs, hps⟩ := searchSome_suffix ha
      have hap : planMarkerAt s = true := by
        by_cases hb : planMarkerAt s = true
        · exact hb
        · simp [Bool.not_eq_true] at hb
          rw [hb] at hps; cases hps
      obtain ⟨c, hcs, hcw⟩ := planMarkerAt_mem hap
      exact ⟨c, hs.subset hcs, hcw⟩
  obtain ⟨c, hcs, hcw⟩ := hmem
  constructor
  · cases text with
    | nil => cases hcs
    | cons _ _ => rfl
  · exact pyStrip_nonempty_of_mem hcs hcw

/-- An assistant record registering a pending question (C6 scenario). -/
def c6QBlock : PyVal :=
  .dict [(S "type", .str (S "tool_use")), (S "name", .str (S "AskUserQuestion")),
         (S "id", .str (S "q1")),
         (S "input", .dict [(S "questions", .list [.str (S "Proceed?")])])]

def c6QRec : PyVal :=
  .dict [(S "type", .str (S "assistant")),
         (S "message", .dict [(S "role", .str (S "assistant")),
           (S "content", .list [c6QBlock])]),
         (S "timestamp", .str (S "t1"))]

/-- Marker-bearing text that also parses as a plan. -/
def c6Text : Str :=
  S "Plan saved to: ~/.claude/plans/x.md\nMy Title\nbody line"

/-- A user record answering the pending question whose flattened text
nevertheless carries the plan-approval marker. -/
def c6AnsRec : PyVal :=
  .dict [(S "type", .str (S "user")),
         (S "message", .dict [(S "role", .str (S "user")),
           (S "content", .list [
              .dict [(S "type", .str (S "tool_result")),
                     (S "tool_use_id", .str (S "q1")),
                     (S "content", .str (S "picked"))],
              .dict [(S "type", .str (S "text")), (S "text", .str c6Text)]])]),
         (S "toolUseResult", .dict [(S "answers", .list [.str (S "yes")])]),
         (S "timestamp", .str (S "t2"))]

def c6WEntry : PyVal := .dict [(S "timestamp", .str (S "t3"))]

/-- C6 (amended): a record whose flattened text contains the plan-approval
marker and that is not pre-empted earlier in its dispatch emits exactly
the plan entry parsed by `parse_plan_content` (title = first non-blank
line after the save-path token, body = remaining lines de-indented and
stripped), falling back to the raw text with the record role when the
parse fails: for a user record this is conditional on the Q&A-resolution
step not firing, and for an assistant record on the earlier stats /
task-registration / question / ExitPlanMode steps not short-circuiting. -/
theorem plan_marker_emission (st : PassState) (entry content : PyVal) (text : Str)
    (hmark : contains_plan_approval text = true) :
    (extract_text_content content false = .ok text →
      userText st [] entry content =
        ({ st with stats := { st.stats with turn_count := st.stats.turn_count + 1 } },
         [match parse_plan_content text with
          | some p => Entry.plan text p.title p.path p.content (tsField entry)
          | Option.none => Entry.user text (tsField entry)])) ∧
    (extract_answers_from_entry entry = .ok Option.none →
      afterScan st [] entry content = userText st [] entry content) ∧
    (∀ detailed p, extract_text_content content detailed = .ok text →
      parse_plan_content text = some p →
      assistantText detailed st [] entry content =
        (st, [Entry.plan text p.title p.path p.content (tsField entry)])) ∧
    (extract_text_content content false = .ok text →
      parse_plan_content text = Option.none →
      assistantText false st [] entry content =
        (st, [Entry.assistant text (tsField entry) Option.none])) := by
  obtain ⟨hA, hB⟩ := marker_nonblank hmark
  refine ⟨?_, ?_, ?_, ?_⟩
  · intro hflat
    unfold userText
    rw [hflat]
    simp [hA, hB, hmark]
  · intro hans
    unfold afterScan
    rw [hans]
  · intro d p hflat hp
    unfold assistantText
    rw [hflat]
    simp [hA, hB, hmark, hp]
  · intro hflat hpn
    unfold assistantText
    rw [hflat]
    simp [hA, hB, hmark, hpn]

/-- C6 counterexample to the original wording: the flattened text of the
user record contains the plan-approval marker and even parses as a plan,
yet the record resolves a pending question, whose `continue` pre-empts
plan emission — the conversation holds one `qa` entry and no `plan`
entry. -/
theorem plan_marker_counterexample :
    contains_plan_approval c6Text = true ∧
    (parse_plan_content c6Text).isSome = true ∧
    extract_text_content
        (pyGetD (pyGetD c6AnsRec (S "message") .none) (S "content") (.str [])) false
      = .ok c6Text ∧
    extract_conversation [c6QRec, c6AnsRec] [] false false =
      [Entry.qa (.list [.str (S "Proceed?")]) (.list [.str (S "yes")]) (.str (S "t2"))] :=
  ⟨rfl, rfl, rfl, rfl⟩

/-- Witness instantiating `plan_marker_emission` at a concrete marker
text. -/
theorem plan_marker_emission_witness :
    contains_plan_approval c6Text = true ∧
    userText initState [] c6WEntry (.str c6Text) =
      ({ initState with stats :=
          { initState.stats with turn_count := initState.stats.turn_count + 1 } },
       [match parse_plan_content c6Text with
        | some p => Entry.plan c6Text p.title p.path p.content (tsField c6WEntry)
        | Option.none => Entry.user c6Text (tsField c6WEntry)]) :=
  ⟨rfl, (plan_marker_emission initState c6WEntry (.str c6Text) c6Text rfl).1 rfl⟩

/-! ## C7: the statistics entry -/

/-- The tool-use guard of the counting loop (source line 437). -/
def isToolUseBlock (item : PyVal) : Bool :=
  item.isDict && pyBeq (pyGetD item (S "type") .none) (.str (S "tool_use"))

/-- Number of `tool_use` blocks in a record content value. -/
def toolUseCount (content : PyVal) : Nat :=
  match content with
  | .list items => items.countP isToolUseBlock
  | _ => 0

/-- A `tool_use` block whose counted name is the string `s`. -/
def toolNameIs (s : Str) (item : PyVal) : Bool :=
  isToolUseBlock item && pyBeq (pyGetD item (S "name") (.str (S "unknown"))) (.str s)

def toolNameCount (s : Str) (content : PyVal) : Nat :=
  match content with
  | .list items => items.countP (toolNameIs s)
  | _ => 0

/-- A usage-token value the source can add to an int counter. -/
def tokOk (v : PyVal) : Prop := (∃ n, v = .int n) ∨ (∃ b, v = .bool b)

theorem pyAddInt_tokOk (a : Int) {v : PyVal} (h : tokOk v) :
    ∃ r, pyAddInt a v = some r := by
  rcases h with ⟨n, rfl⟩ | ⟨b, rfl⟩ <;> exact ⟨_, rfl⟩

/-- Inserting under a different string key leaves a string lookup alone. -/
theorem dlookup_dinsert_str {α : Type} {s t : Str} (h : s ≠ t) (v : α)
    (m : List (PyVal × α)) :
    dlookup (.str s) (dinsert (.str t) v m) = dlookup (.str s) m := by
  induction m with
  | nil => simp [dinsert, dlookup, pyBeq, h]
  | cons hd tl ih =>
      obtain ⟨k, w⟩ := hd
      by_cases hk : pyBeq (.str t) k = true
      · have hks : k = .str t := by
          cases k <;> simp [pyBeq] at hk ⊢
          exact hk.symm
        subst hks
        simp [dinsert, dlookup, pyBeq, h, pyBeq_refl]
      · simp only [Bool.not_eq_true] at hk
        simp only [dinsert, hk, Bool.false_eq_true, if_false, dlookup]
        by_cases hsk : pyBeq (.str s) k = true
        · simp [hsk]
        · simp only [Bool.not_eq_true] at hsk
          simp [hsk, ih]

/-- `addModel` never raises on a string model and touches only
`models_used`. -/
theorem addModel_str (st : Stats) (ms : Str) :
    ∃ st1, addModel st (.str ms) = .ok st1 ∧
      st1.tool_use_count = st.tool_use_count ∧ st1.tools_used = st.tools_used := by
  unfold addModel
  by_cases ht : truthy (.str ms) = true
  · rw [if_pos ht, show hashable (.str ms) = true from rfl]
    refine ⟨_, rfl, rfl, rfl⟩
  · simp only [Bool.not_eq_true] at ht
    rw [ht]
    exact ⟨st, rfl, rfl, rfl⟩

/-- Exactness of the tool-counting loop when every counted name is a
string: one bump of `tool_use_count` per `tool_use` block and one bump of
that name in `tools_used`. -/
theorem countTools_exact (items : List PyVal)
    (hnm : ∀ item ∈ items, isToolUseBlock item = true →
      ∃ nm, pyGetD item (S "name") (.str (S "unknown")) = .str nm) :
    ∀ st : Stats, ∃ st', countTools st items = .ok st' ∧
      st'.tool_use_count = st.tool_use_count + (items.countP isToolUseBlock : Int) ∧
      ∀ s : Str,
        (items.countP (toolNameIs s) = 0 →
          dlookup (.str s) st'.tools_used = dlookup (.str s) st.tools_used) ∧
        (0 < items.countP (toolNameIs s) →
          dlookup (.str s) st'.tools_used =
            some ((dlookup (.str s) st.tools_used).getD 0 +
              (items.countP (toolNameIs s) : Int))) := by
  induction items with
  | nil =>
      intro st
      exact ⟨st, rfl, by simp, fun s => ⟨fun _ => rfl, fun h => absurd h (by simp)⟩⟩
  | cons item rest ih =>
      intro st
      have hnmr : ∀ it ∈ rest, isToolUseBlock it = true →
          ∃ nm, pyGetD it (S "name") (.str (S "unknown")) = .str nm :=
        fun it hit => hnm it (List.mem_cons_of_mem _ hit)
      by_cases hb : isToolUseBlock item = true
      · obtain ⟨nm, hnmx⟩ := hnm item (List.mem_cons_self _ _) hb
        have hb' : (item.isDict && pyBeq (pyGetD item (S "type") .none)
            (.str (S "tool_use"))) = true := hb
        have hstep : countTools st (item :: rest) =
            countTools
              { st with tool_use_count := st.tool_use_count + 1,
                        tools_used := counterIncr (.str nm) st.tools_used } rest := by
          rw [countTools, hb']
          dsimp only
          rw [hnmx]
          rfl
        rw [hstep]
        obtain ⟨st', hok, hcnt, hnames⟩ :=
          ih hnmr { st with tool_use_count := st.tool_use_count + 1,
                            tools_used := counterIncr (.str nm) st.tools_used }
        dsimp only at hcnt
        refine ⟨st', hok, ?_, ?_⟩
        · rw [hcnt]
          simp only [List.countP_cons, hb, if_true]
          push_cast
          ring
        · intro s
          obtain ⟨hz, hp⟩ := hnames s
          dsimp only at hz hp
          by_cases hsn : s = nm
          · have hti : toolNameIs s item = true := by
              rw [hsn]
              simp [toolNameIs, hb, hnmx, pyBeq_refl]
            have hcur : dlookup (.str s) (counterIncr (.str nm) st.tools_used) =
                some ((dlookup (.str s) st.tools_used).getD 0 + 1) := by
              rw [hsn]
              exact dlookup_dinsert (.str nm) _ st.tools_used
            have hcc : (item :: rest).countP (toolNameIs s) =
                rest.countP (toolNameIs s) + 1 := by
              simp [List.countP_cons, hti]
            refine ⟨?_, ?_⟩
            · intro h0
              rw [hcc] at h0
              exact absurd h0 (by omega)
            · intro _
              rw [hcc]
              rcases Nat.eq_zero_or_pos (rest.countP (toolNameIs s)) with hr | hr
              · rw [hr, hz hr, hcur]
                norm_num
              · rw [hp hr, hcur]
                simp only [Option.getD_some]
                congr 1
                push_cast
                ring
          · have hti : toolNameIs s item = false := by
              simp only [toolNameIs, hnmx, Bool.and_eq_false_iff]
              right
              simp only [pyBeq]
              exact decide_eq_false (fun h => hsn h.symm)
            have hcur : dlookup (.str s) (counterIncr (.str nm) st.tools_used) =
                dlookup (.str s) st.tools_used :=
              dlookup_dinsert_str hsn _ st.tools_used
            have hcc : (item :: rest).countP (toolNameIs s) =
                rest.countP (toolNameIs s) := by
              simp [List.countP_cons, hti]
            rw [hcc]
            refine ⟨?_, ?_⟩
            · intro h0
              rw [hz h0, hcur]
            · intro hpos
              rw [hp hpos, hcur]
      · simp only [Bool.not_eq_true] at hb
        have hb' : (item.isDict && pyBeq (pyGetD item (S "type") .none)
            (.str (S "tool_use"))) = false := hb
        have hstep : countTools st (item :: rest) = countTools st rest := by
          rw [countTools, hb']
          rfl
        rw [hstep]
        obtain ⟨st', hok, hcnt, hnames⟩ := ih hnmr st
        refine ⟨st', hok, ?_, ?_⟩
        · rw [hcnt]
          simp [List.countP_cons, hb]
        · intro s
          obtain ⟨hz, hp⟩ := hnames s
          have hcc : (item :: rest).countP (toolNameIs s) =
              rest.countP (toolNameIs s) := by
            simp [List.countP_cons, toolNameIs, hb]
          rw [hcc]
          exact ⟨hz, hp⟩

/-- Exactness of the whole detailed-mode statistics step for a
well-formed assistant record. -/
theorem statsUpdate_exact (st : Stats) (msg content : PyVal)
    (hmod : ∃ ms, pyGetD msg (S "model") (.str []) = .str ms)
    (husage : ∃ ukvs, pyGetD msg (S "usage") (.dict []) = .dict ukvs ∧
      ∀ k, tokOk ((dGet? ukvs k).getD (.int 0)))
    (hnm : ∀ items, content = .list items → ∀ item ∈ items,
      isToolUseBlock item = true →
      ∃ nm, pyGetD item (S "name") (.str (S "unknown")) = .str nm) :
    ∃ st', statsUpdate st msg content = .ok st' ∧
      st'.tool_use_count = st.tool_use_count + (toolUseCount content : Int) ∧
      ∀ s : Str,
        (toolNameCount s content = 0 →
          dlookup (.str s) st'.tools_used = dlookup (.str s) st.tools_used) ∧
        (0 < toolNameCount s content →
          dlookup (.str s) st'.tools_used =
            some ((dlookup (.str s) st.tools_used).getD 0 +
              (toolNameCount s content : Int))) := by
  obtain ⟨ms, hms⟩ := hmod
  obtain ⟨ukvs, huk, htok⟩ := husage
  obtain ⟨st1, h1, h1c, h1u⟩ := addModel_str st ms
  unfold statsUpdate
  rw [hms, h1, huk]
  dsimp only
  obtain ⟨a, ha⟩ := pyAddInt_tokOk st1.total_input_tokens (htok (S "input_tokens"))
  rw [ha]
  dsimp only
  obtain ⟨b, hbb⟩ := pyAddInt_tokOk _ (htok (S "output_tokens"))
  rw [hbb]
  dsimp only
  obtain ⟨c, hc⟩ := pyAddInt_tokOk _ (htok (S "cache_read_input_tokens"))
  rw [hc]
  dsimp only
  obtain ⟨d, hd⟩ := pyAddInt_tokOk _ (htok (S "cache_creation_input_tokens"))
  rw [hd]
  dsimp only
  cases content with
  | list items =>
      obtain ⟨st', hok, hcnt, hnames⟩ := countTools_exact items (hnm items rfl) _
      refine ⟨st', hok, ?_, ?_⟩
      · rw [hcnt]
        show st1.tool_use_count + _ = _
        rw [h1c]
        rfl
      · intro s
        obtain ⟨hz, hp⟩ := hnames s
        constructor
        · intro h0
          rw [hz h0]
          exact congrArg (dlookup _) h1u
        · intro hpos
          rw [hp hpos]
          show some ((dlookup (PyVal.str s) st1.tools_used).getD 0 + _) = _
          rw [h1u]
          rfl
  | str v =>
      exact ⟨_, rfl, by show st1.tool_use_count = _; rw [h1c]; simp [toolUseCount],
        fun s => ⟨fun _ => by show dlookup _ st1.tools_used = _; rw [h1u],
          fun h => absurd h (by simp [toolNameCount])⟩⟩
  | int v =>
      exact ⟨_, rfl, by show st1.tool_use_count = _; rw [h1c]; simp [toolUseCount],
        fun s => ⟨fun _ => by show dlookup _ st1.tools_used = _; rw [h1u],
          fun h => absurd h (by simp [toolNameCount])⟩⟩
  | bool v =>
      exact ⟨_, rfl, by show st1.tool_use_count = _; rw [h1c]; simp [toolUseCount],
        fun s => ⟨fun _ => by show dlookup _ st1.tools_used = _; rw [h1u],
          fun h => absurd h (by simp [toolNameCount])⟩⟩
  | none =>
      exact ⟨_, rfl, by show st1.tool_use_count = _; rw [h1c]; simp [toolUseCount],
        fun s => ⟨fun _ => by show dlookup _ st1.tools_used = _; rw [h1u],
          fun h => absurd h (by simp [toolNameCount])⟩⟩
  | dict kvs =>
      exact ⟨_, rfl, by show st1.tool_use_count = _; rw [h1c]; simp [toolUseCount],
        fun s => ⟨fun _ => by show dlookup _ st1.tools_used = _; rw [h1u],
          fun h => absurd h (by simp [toolNameCount])⟩⟩

/-- A user record contributing one plain entry (C7 scenario). -/
def c7URec : PyVal :=
  .dict [(S "type", .str (S "user")),
         (S "message", .dict [(S "role", .str (S "user")),
           (S "content", .str (S "hi"))]),
         (S "timestamp", .str (S "t1"))]

def c7ToolBlock : PyVal :=
  .dict [(S "type", .str (S "tool_use")), (S "name", .str (S "Bash")),
         (S "id", .str (S "b1")), (S "input", .dict [])]

/-- An assistant record whose usage dict carries a string-valued token:
the stats step raises before the tool-counting loop. -/
def c7ARec : PyVal :=
  .dict [(S "type", .str (S "assistant")),
         (S "message", .dict [(S "role", .str (S "assistant")),
           (S "model", .str (S "m")),
           (S "usage", .dict [(S "input_tokens", .str (S "x"))]),
           (S "content", .list [c7ToolBlock])]),
         (S "timestamp", .str (S "t2"))]

/-- A well-formed assistant message for the witness. -/
def c7WMsg : PyVal :=
  .dict [(S "role", .str (S "assistant")),
         (S "model", .str (S "m")),
         (S "usage", .dict [(S "input_tokens", .int 5)])]

/-- C7 (amended): in detailed mode a non-empty extraction ends in the
stats entry of the final accumulator; and the statistics step of an
assistant record it is reached on — string model, usage dict with int- or
bool-valued tokens, string tool names — adds exactly one to
`tool_use_count` per `tool_use` block of the record content and bumps
`tools_used` at each name by its exact occurrence count. Records whose
stats step raises midway leave their blocks uncounted, so the whole-log
totals can undercount the log. -/
theorem stats_entry_spec :
    (∀ log subs t, extract_conversation log subs true t ≠ [] →
      (extract_conversation log subs true t).getLast? =
        some (.stats (normalizeStats
          (runLog ⟨true, t, subs⟩ initState log).1.stats))) ∧
    (∀ st msg content,
      (∃ ms, pyGetD msg (S "model") (.str []) = .str ms) →
      (∃ ukvs, pyGetD msg (S "usage") (.dict []) = .dict ukvs ∧
        ∀ k, tokOk ((dGet? ukvs k).getD (.int 0))) →
      (∀ items, content = .list items → ∀ item ∈ items,
        isToolUseBlock item = true →
        ∃ nm, pyGetD item (S "name") (.str (S "unknown")) = .str nm) →
      ∃ st', statsUpdate st msg content = .ok st' ∧
        st'.tool_use_count = st.tool_use_count + (toolUseCount content : Int) ∧
        ∀ s : Str,
          (toolNameCount s content = 0 →
            dlookup (.str s) st'.tools_used = dlookup (.str s) st.tools_used) ∧
          (0 < toolNameCount s content →
            dlookup (.str s) st'.tools_used =
              some ((dlookup (.str s) st.tools_used).getD 0 +
                (toolNameCount s content : Int)))) := by
  constructor
  · intro log subs t h
    have he : extract_conversation log subs true t =
        (if true && !(runLog ⟨true, t, subs⟩ initState log).2.isEmpty then
          (runLog ⟨true, t, subs⟩ initState log).2 ++
            [.stats (normalizeStats (runLog ⟨true, t, subs⟩ initState log).1.stats)]
         else (runLog ⟨true, t, subs⟩ initState log).2) := rfl
    rw [he] at h ⊢
    cases hcv : (runLog ⟨true, t, subs⟩ initState log).2 with
    | nil => rw [hcv] at h; simp at h
    | cons a l =>
        simp only [List.isEmpty_cons, Bool.not_false, Bool.true_and, if_true]
        exact List.getLast?_concat _
  · exact fun st msg content hmod husage hnm =>
      statsUpdate_exact st msg content hmod husage hnm

/-- C7 counterexample to the original wording: the log has one assistant
record with one `tool_use` block, but its usage dict carries a string
token, so the stats step raises before the counting loop — the final
stats entry reports `tool_use_count = 0` and an empty `tools_used` even
though the assistant records of the log hold one `tool_use` block. -/
theorem stats_tool_counterexample :
    toolUseCount (pyGetD (pyGetD c7ARec (S "message") .none) (S "content") (.list [])) = 1 ∧
    extract_conversation [c7URec, c7ARec] [] true false =
      [Entry.user (S "hi") (.str (S "t1")),
       .stats ⟨[.str (S "m")], 0, 0, 0, 0, 1, 0, [], 0, 0, .str [], .str []⟩] :=
  ⟨rfl, rfl⟩

/-- Witness instantiating `stats_entry_spec` on a concrete log and a
concrete well-formed assistant message. -/
theorem stats_entry_spec_witness :
    (extract_conversation [c7URec] [] true false).getLast? =
      some (.stats (normalizeStats (runLog ⟨true, false, []⟩ initState [c7URec]).1.stats)) ∧
    ∃ st', statsUpdate initStats c7WMsg (.list [c7ToolBlock]) = .ok st' ∧
      st'.tool_use_count = initStats.tool_use_count +
        (toolUseCount (.list [c7ToolBlock]) : Int) ∧
      ∀ s : Str,
        (toolNameCount s (.list [c7ToolBlock]) = 0 →
          dlookup (.str s) st'.tools_used = dlookup (.str s) initStats.tools_used) ∧
        (0 < toolNameCount s (.list [c7ToolBlock]) →
          dlookup (.str s) st'.tools_used =
            some ((dlookup (.str s) initStats.tools_used).getD 0 +
              (toolNameCount s (.list [c7ToolBlock]) : Int))) :=
  ⟨stats_entry_spec.1 [c7URec] [] false
     (by
       rw [show extract_conversation [c7URec] [] true false =
         [Entry.user (S "hi") (.str (S "t1")),
          .stats ⟨[], 0, 0, 0, 0, 1, 0, [], 0, 0, .str [], .str []⟩] from rfl]
       exact List.cons_ne_nil _ _),
   stats_entry_spec.2 initStats c7WMsg (.list [c7ToolBlock])
     ⟨S "m", rfl⟩
     ⟨[(S "input_tokens", .int 5)], rfl, by
       intro k
       by_cases h : S "input_tokens" = k
       · simp only [dGet?, if_pos h, Option.getD_some]
         exact Or.inl ⟨5, rfl⟩
       · simp only [dGet?, if_neg h]
         exact Or.inl ⟨0, rfl⟩⟩
     (by
       intro items hit item hm hblk
       injection hit with h2
       subst h2
       simp only [List.mem_singleton] at hm
       subst hm
       exact ⟨S "Bash", rfl⟩)⟩

end CCE
